import Mathlib

/-!
# pgsql.cpp: escaping, statement formatting and status-checked execution

A shallow embedding of `src/pgsql.cpp` (helper functions for the PostgreSQL
connections of osm2pgsql) together with the properties proved about it.

Conventions of the embedding

* A byte is a `UInt8`; memory reached through a `char*` is a `List UInt8`.
  Reading one position past the end of such a list yields the terminating
  NUL that every C string carries, so the list `[97, 98]` stands for the
  memory `a b \0`.  A list may itself hold a `0`: the loops of the source
  test `*src` / `*in` and stop there, and so do the definitions below.
* `int` variables are `Int`; where the growth of the statement buffer would
  overflow a signed `int` the embedding yields an explicit overflow outcome.
* A store through a pointer that lies outside its buffer is undefined
  behaviour and yields `none`.
* A `char*` that is streamed into a message, or measured with `strlen`, is
  read as the C string `cstr` of the memory behind it.
-/

namespace Pgsql

/-! ## Definitions -/

/-- A run of bytes: the content of a `std::string` or the memory behind a `char*`. -/
abbrev Text := List UInt8

/-- Bytes of an ASCII literal, used to write the constant pieces of messages. -/
def ascii (s : String) : Text := s.data.map (fun c => c.toNat.toUInt8)

/-- Value of `*p` for a pointer into C-string memory: the byte under the
pointer, or the terminating NUL once the stored bytes are exhausted. -/
def peek : Text → UInt8
  | [] => 0
  | c :: _ => c

/-- The C string stored in some memory: the bytes before the first NUL. -/
def cstr (mem : Text) : Text := mem.takeWhile (fun b => b ≠ 0)

/-! ### `void escape(const char* src, std::string& dst)` (lines 11-26) -/

/-- The growable-destination escaper.  `src` is the memory behind the source
pointer, `dst` the destination string on entry; the value is the destination
on return.  Each `case` of the `switch` is one branch; 92 is the backslash, 10 the
newline, 13 the carriage return and 9 the tab. -/
def escape : Text → Text → Text
  | [], dst => dst
  | c :: src, dst =>
    if c = 0 then dst
    else if c = 92 then escape src (dst ++ [92, 92])
    else if c = 10 then escape src (dst ++ [92, 10])
    else if c = 13 then escape src (dst ++ [92, 13])
    else if c = 9 then escape src (dst ++ [92, 9])
    else escape src (dst ++ [c])

/-- The per-byte transformation as the specification words it: backslash
gives two backslashes; newline, carriage return and tab give a backslash
followed by that same byte; any other byte gives itself. -/
def escapedByte (c : UInt8) : Text :=
  if c = 92 then [92, 92]
  else if c = 10 then [92, 10]
  else if c = 13 then [92, 13]
  else if c = 9 then [92, 9]
  else [c]

/-- The output that the specification gives for a source sequence: the concatenation,
byte by byte, of `escapedByte`. -/
def escapedText : Text → Text
  | [] => []
  | c :: s => escapedByte c ++ escapedText s

/-- Left-to-right scan of an encoded text: every position reached is either a
byte that needs no escape, or a backslash immediately followed by a backslash,
newline, carriage return or tab (and the scan resumes after that pair). -/
def wellEscaped : Text → Bool
  | [] => true
  | [c] => decide (c ≠ 92 ∧ c ≠ 10 ∧ c ≠ 13 ∧ c ≠ 9)
  | c :: d :: rest =>
    if c = 92 then
      decide (d = 92 ∨ d = 10 ∨ d = 13 ∨ d = 9) && wellEscaped rest
    else
      decide (c ≠ 10 ∧ c ≠ 13 ∧ c ≠ 9) && wellEscaped (d :: rest)

/-- The property "every backslash byte is immediately followed by a backslash,
newline, carriage return or tab", read position by position. -/
def everyBackslashFollowed (out : Text) : Prop :=
  ∀ i : Nat, out[i]? = some 92 →
    out[i + 1]? = some 92 ∨ out[i + 1]? = some 10 ∨
      out[i + 1]? = some 13 ∨ out[i + 1]? = some 9

/-! ### `void escape(char *out, const int len, const char *in)` (lines 28-57) -/

/-- The assignment `*p = b` for `p = buf + pos`: defined only inside the buffer. -/
def store (buf : Text) (pos : Nat) (b : UInt8) : Option Text :=
  if pos < buf.length then some (buf.set pos b) else none

/-- The machine state at the exit of the `while` loop of the bounded escaper. -/
structure LoopExit where
  /-- The contents of the output buffer. -/
  out : Text
  /-- The offset of the `out` pointer from the start of the buffer. -/
  pos : Nat
  /-- The variable `count`. -/
  count : Int
  /-- The memory from the `in` pointer onwards. -/
  rest : Text
  deriving DecidableEq

/-- The `while(*in && count < len-3)` loop.  Arguments: `len`, the memory at
`in`, the buffer, the offset of `out`, and `count`. -/
def escape_loop (len : Int) : Text → Text → Nat → Int → Option LoopExit
  | [], out, pos, count => some ⟨out, pos, count, []⟩
  | c :: rest, out, pos, count =>
    if c ≠ 0 ∧ count < len - 3 then
      if c = 92 then
        (store out pos 92).bind fun o1 =>
        (store o1 (pos + 1) 92).bind fun o2 =>
        escape_loop len rest o2 (pos + 2) (count + 2)
      else if c = 10 then
        (store out pos 92).bind fun o1 =>
        (store o1 (pos + 1) 10).bind fun o2 =>
        escape_loop len rest o2 (pos + 2) (count + 2)
      else if c = 13 then
        (store out pos 92).bind fun o1 =>
        (store o1 (pos + 1) 13).bind fun o2 =>
        escape_loop len rest o2 (pos + 2) (count + 2)
      else if c = 9 then
        (store out pos 92).bind fun o1 =>
        (store o1 (pos + 1) 9).bind fun o2 =>
        escape_loop len rest o2 (pos + 2) (count + 2)
      else
        (store out pos c).bind fun o1 =>
        escape_loop len rest o1 (pos + 1) (count + 1)
    else some ⟨out, pos, count, c :: rest⟩

/-- What the bounded escaper leaves behind when it returns. -/
structure Escaped where
  /-- The contents of the output buffer. -/
  out : Text
  /-- The final value of `count`, the number of bytes written before the terminator. -/
  count : Int
  /-- The memory from the final `in` pointer onwards: the part of the source not consumed. -/
  rest : Text
  /-- Whether the "truncated at" diagnostic was printed. -/
  truncated : Bool
  deriving DecidableEq

/-- The bounded escaper.  `buf` is the buffer of the caller on entry, `len` the
capacity argument, `src` the memory at `in`.  With `len = 0` the function
returns before touching anything; otherwise it runs the loop, stores the
terminator through `out` and prints the diagnostic when `*in` is not NUL.
The bound `len - 3` is computed in `Int`: in the source it could overflow only
for `len` within 3 of the least `int`, which is the capacity of no buffer. -/
def escape_bounded (buf : Text) (len : Int) (src : Text) : Option Escaped :=
  if len = 0 then some ⟨buf, 0, src, false⟩
  else
    (escape_loop len src buf 0 0).bind fun s =>
    (store s.out s.pos 0).bind fun o =>
    some ⟨o, s.count, s.rest, decide (peek s.rest ≠ 0)⟩

/-! ### Postconditions of the bounded escaper, used to state the lemmas below -/

/-- What holds when the loop of the bounded escaper, entered with the buffer
`out`, write offset `pos` and the source `src`, exits in state `e` having
consumed the prefix `p` of the source. -/
structure LoopPost (len : Int) (src out : Text) (pos : Nat) (e : LoopExit) (p : Text) : Prop where
  split : src = p ++ e.rest
  nul_free : ∀ b ∈ p, b ≠ 0
  length_out : e.out.length = out.length
  written : e.out.take e.pos = out.take pos ++ escapedText p
  pos_eq : e.pos = pos + (escapedText p).length
  count_eq : e.count = (e.pos : Int)
  bound : e.pos = pos ∨ (e.pos : Int) ≤ len - 2
  stopped : peek e.rest = 0 ∨ len - 3 ≤ e.count
  consumed_room : ∀ q c t, p = q ++ c :: t → (pos : Int) + (escapedText q).length < len - 3

/-- What holds of the result `r` of the bounded escaper on a buffer of at
least `len >= 1` bytes, `p` being the prefix of the source it consumed. -/
structure BoundedPost (len : Int) (buf src : Text) (r : Escaped) (p : Text) : Prop where
  split : src = p ++ r.rest
  nul_free : ∀ b ∈ p, b ≠ 0
  length_out : r.out.length = buf.length
  count_eq : r.count = ((escapedText p).length : Int)
  written : r.out.take (escapedText p).length = escapedText p
  terminator : r.out[(escapedText p).length]? = some 0
  bound : r.count = 0 ∨ r.count ≤ len - 2
  stopped : peek r.rest = 0 ∨ len - 3 ≤ r.count
  truncated_iff : r.truncated = true ↔ peek r.rest ≠ 0
  consumed_room : ∀ q c t, p = q ++ c :: t → ((escapedText q).length : Int) < len - 3

/-! ### The formatting loop of `pgsql_exec` (lines 83-110) -/

/-- Largest value of a signed 32-bit `int`. -/
def INT_MAX : Int := 2147483647

/-- The two behaviours of `vsnprintf` the source provides for, named as in its
comments: `glibc21` returns the length the full output needs, `glibc20`
returns `-1` when the output does not fit. -/
inductive Libc
  | glibc21
  | glibc20
  deriving DecidableEq

/-- The call `vsnprintf(sql, size, fmt, ap)`, where `text` is the complete
formatting of `fmt` with its arguments.  Modelled from the C library manual
page that the source cites: at most `size - 1` bytes of the text and a
terminating NUL are stored; the value is the length of the text when it fits
(`length < size`), and otherwise the length (`glibc21`) or `-1` (`glibc20`);
a length that no `int` can hold is reported as `-1`.  The second component is
the content of the buffer from its start up to the terminator. -/
def vsnprintf (libc : Libc) (text : Text) (size : Int) : Int × Text :=
  let n : Int :=
    if INT_MAX < (text.length : Int) then -1
    else if (text.length : Int) < size then (text.length : Int)
    else match libc with
      | Libc.glibc21 => (text.length : Int)
      | Libc.glibc20 => -1
  (n, if 0 < size then text.take (size.toNat - 1) ++ [0] else [])

/-- How the formatting part of `pgsql_exec` ends. -/
inductive Formatted
  /-- The loop left through `break`: the buffer content, the final `size`
  and the number of `vsnprintf` calls made. -/
  | ok (sql : Text) (size : Int) (attempts : Nat)
  /-- `malloc` or `realloc` returned `NULL` and a `runtime_error` was thrown. -/
  | allocFailed (what : Text)
  /-- The new `size` does not fit in an `int`: signed overflow, undefined behaviour. -/
  | overflow
  /-- The iteration budget of the embedding ran out (shown never to happen). -/
  | outOfFuel
  deriving DecidableEq

/-- The `while (1)` loop.  `heap n` tells whether an allocation of `n` bytes
succeeds.  Arguments after the budget: the current `size` and the number of
`vsnprintf` calls made so far. -/
def format_loop (libc : Libc) (text : Text) (heap : Int → Bool) : Nat → Int → Nat → Formatted
  | 0, _, _ => Formatted.outOfFuel
  | fuel + 1, size, attempts =>
    let r := vsnprintf libc text size
    if r.1 > -1 ∧ r.1 < size then Formatted.ok r.2 size (attempts + 1)
    else
      let grown : Int := if r.1 > -1 then r.1 + 1 else size * 2
      if INT_MAX < grown then Formatted.overflow
      else if heap grown then format_loop libc text heap fuel grown (attempts + 1)
      else Formatted.allocFailed (ascii "Memory re-allocation failed in pgsql_exec")

/-- Lines 83-110 of `pgsql_exec`: allocate 100 bytes, then run the loop.  The
budget of 64 iterations is never exhausted (`pgsql_exec_format_total`). -/
def pgsql_exec_format (libc : Libc) (text : Text) (heap : Int → Bool) : Formatted :=
  if heap 100 then format_loop libc text heap 64 100 0
  else Formatted.allocFailed (ascii "Memory allocation failed in pgsql_exec")

/-! ### The connection and the executors -/

/-- The result status of libpq (`ExecStatusType` of `libpq-fe.h`). -/
inductive ExecStatusType
  | PGRES_EMPTY_QUERY
  | PGRES_COMMAND_OK
  | PGRES_TUPLES_OK
  | PGRES_COPY_OUT
  | PGRES_COPY_IN
  | PGRES_BAD_RESPONSE
  | PGRES_NONFATAL_ERROR
  | PGRES_FATAL_ERROR
  | PGRES_COPY_BOTH
  | PGRES_SINGLE_TUPLE
  deriving DecidableEq

/-- The integer value of a status, which is what a stream prints for it. -/
def ExecStatusType.toNat : ExecStatusType → Nat
  | PGRES_EMPTY_QUERY => 0
  | PGRES_COMMAND_OK => 1
  | PGRES_TUPLES_OK => 2
  | PGRES_COPY_OUT => 3
  | PGRES_COPY_IN => 4
  | PGRES_BAD_RESPONSE => 5
  | PGRES_NONFATAL_ERROR => 6
  | PGRES_FATAL_ERROR => 7
  | PGRES_COPY_BOTH => 8
  | PGRES_SINGLE_TUPLE => 9

/-- A `PGresult*`: the handle and the status `PQresultStatus` reads from it.
(A null result, which libpq reads as `PGRES_FATAL_ERROR` and `PQclear`
ignores, is not told apart from a result with that status.) -/
structure PGresult where
  handle : Nat
  status : ExecStatusType
  deriving DecidableEq

/-- A `PGconn*`, as far as these functions observe it: for each request, the
answer of the library call paired with the text `PQerrorMessage` gives once
that call has been made. -/
structure PGconn where
  /-- The call `PQexec(conn, sql)`. -/
  exec : Text → PGresult × Text
  /-- The call `PQexecPrepared(conn, stmtName, nParams, paramValues, NULL, NULL, 0)`. -/
  execPrepared : Text → Int → List (Option Text) → PGresult × Text
  /-- The call `PQputCopyData(conn, buffer, nbytes)`, given the `nbytes` bytes
  of the buffer that it is asked to send. -/
  putCopyData : Text → Int × Text

/-- How a call ends: a value is returned, an exception with the given `what()`
text is thrown, or the behaviour is undefined. -/
inductive Outcome (α : Type)
  | returned (value : α)
  | thrown (what : Text)
  | undefined
  deriving DecidableEq

/-- A finished call: its outcome and the `PQclear` calls it made, in order. -/
structure Run (α : Type) where
  outcome : Outcome α
  cleared : List PGresult
  deriving DecidableEq

/-- The executor `pgsql_exec_simple(conn, expect, const char *sql)` (lines
64-76).  `sql` is the memory behind the pointer: the statement that `PQexec`
sends and that the message shows is the C string in it, and the diagnostic
text is the C string `PQerrorMessage` points to.  The returned value is the
result that the `shared_ptr` owns (its deleter `PQclear` has not run). -/
def pgsql_exec_simple (conn : PGconn) (expect : ExecStatusType) (sql : Text) : Run PGresult :=
  let r := conn.exec (cstr sql)
  if r.1.status ≠ expect then
    ⟨Outcome.thrown (cstr sql ++ ascii " failed: " ++ cstr r.2 ++ [10]), [r.1]⟩
  else ⟨Outcome.returned r.1, []⟩

/-- The overload `pgsql_exec_simple(conn, expect, const std::string& sql)`
(lines 59-62): it passes `sql.c_str()`, a pointer to the bytes of the string
followed by a NUL.  A `std::string` may hold NUL bytes of its own. -/
def pgsql_exec_simple_string (conn : PGconn) (expect : ExecStatusType) (sql : Text) :
    Run PGresult :=
  pgsql_exec_simple conn expect sql

/-- Lines 112-124 of `pgsql_exec`, after the statement has been formatted:
the statement in the buffer is sent, the status compared, the result cleared
on both paths. -/
def pgsql_exec (conn : PGconn) (expect : ExecStatusType) (libc : Libc) (text : Text)
    (heap : Int → Bool) : Run Int :=
  match pgsql_exec_format libc text heap with
  | Formatted.ok sql _ _ =>
    let r := conn.exec (cstr sql)
    if r.1.status ≠ expect then
      ⟨Outcome.thrown (cstr sql ++ ascii " failed: " ++ cstr r.2), [r.1]⟩
    else ⟨Outcome.returned 0, [r.1]⟩
  | Formatted.allocFailed what => ⟨Outcome.thrown what, []⟩
  | Formatted.overflow => ⟨Outcome.undefined, []⟩
  | Formatted.outOfFuel => ⟨Outcome.undefined, []⟩

/-- What a stream prints for a status: its integer value in decimal. -/
def renderStatus (s : ExecStatusType) : Text := ascii (Nat.repr s.toNat)

/-- The loop `for(int i = 0; i < nParams; i++)` of `pgsql_execPrepared`, with
the number of iterations left, the index `i` and the message so far.  An entry
of `paramValues` is `none` for a null pointer; appending a null pointer to a
`std::string`, like reading past the end of the array, is undefined.  A
pointer that is not null is appended as the C string behind it. -/
def arguments_loop (paramValues : List (Option Text)) : Nat → Nat → Text → Option Text
  | 0, _, message => some message
  | left + 1, i, message =>
    match paramValues[i]? with
    | some (some value) =>
      arguments_loop paramValues left (i + 1) (message ++ cstr value ++ ascii ", ")
    | _ => none

/-- The executor `pgsql_execPrepared` (lines 147-178).  `PQexecPrepared` is
handed the pointers as they are; the message shows the C strings behind the
statement name, the diagnostic text and the parameters.  The returned value is
the pointer handed back: `some res`, or `none` for `NULL`. -/
def pgsql_execPrepared (conn : PGconn) (stmtName : Text) (nParams : Int)
    (paramValues : List (Option Text)) (expect : ExecStatusType) : Run (Option PGresult) :=
  let r := conn.execPrepared stmtName nParams paramValues
  if r.1.status ≠ expect then
    let message := cstr stmtName ++ ascii " failed: " ++ cstr r.2 ++ ascii "("
      ++ renderStatus r.1.status ++ ascii ")" ++ [10]
    let full :=
      if nParams ≠ 0 then
        arguments_loop paramValues nParams.toNat 0 (message ++ ascii "Arguments were: ")
      else some message
    match full with
    | some what => ⟨Outcome.thrown what, [r.1]⟩
    | none => ⟨Outcome.undefined, []⟩
  else if expect ≠ ExecStatusType.PGRES_TUPLES_OK then ⟨Outcome.returned none, [r.1]⟩
  else ⟨Outcome.returned (some r.1), []⟩

/-- The text that the loop over the arguments appends for a list of non-null
parameters: the C string of each value followed by a comma and a blank. -/
def renderedArguments : List Text → Text
  | [] => []
  | value :: rest => cstr value ++ ascii ", " ++ renderedArguments rest

/-! ### `boost::format` and `pgsql_CopyData` (lines 127-145) -/

/-- A piece of a `boost::format` string: literal text, or the directive `%n%`
that stands for the `n`-th argument. -/
inductive Piece
  | text (t : Text)
  | arg (n : Nat)
  deriving DecidableEq

/-- The number of arguments a format string expects: its largest directive number. -/
def expectedArgs : List Piece → Nat
  | [] => 0
  | Piece.text _ :: rest => expectedArgs rest
  | Piece.arg n :: rest => max n (expectedArgs rest)

/-- The text of a format string whose directives are replaced by the arguments. -/
def fillPieces (args : List Text) : List Piece → Text
  | [] => []
  | Piece.text t :: rest => t ++ fillPieces args rest
  | Piece.arg n :: rest => args.getD (n - 1) [] ++ fillPieces args rest

/-- The `what()` text of `boost::io::too_many_args`.  The wording belongs to
the library; it is one fixed text, whatever the format string and arguments. -/
def too_many_args : Text :=
  ascii "boost::too_many_args: format-string referred to fewer arguments than were passed"

/-- The `what()` text of `boost::io::too_few_args`. -/
def too_few_args : Text :=
  ascii "boost::too_few_args: format-string referred to more arguments than were passed"

/-- The expression `(boost::format(fmt) % a1 % ... % ak).str()`.  Modelled from
the documentation of the Boost Format library, with its default exception
mask: feeding an argument beyond those the format string expects throws
`too_many_args`, taking the string with arguments missing throws
`too_few_args`, and otherwise the value is the filled-in text. -/
def boost_format (fmt : List Piece) (args : List Text) : Outcome Text :=
  if expectedArgs fmt < args.length then Outcome.thrown too_many_args
  else if args.length < expectedArgs fmt then Outcome.thrown too_few_args
  else Outcome.returned (fillPieces args fmt)

/-- The statement `throw std::runtime_error(message)` where the message is the
value of a `boost::format` expression: when that expression throws, its own
exception leaves the function instead. -/
def throw_runtime_error (message : Outcome Text) : Outcome Unit :=
  match message with
  | Outcome.returned what => Outcome.thrown what
  | Outcome.thrown what => Outcome.thrown what
  | Outcome.undefined => Outcome.undefined

/-- The function `pgsql_CopyData(context, sql_conn, sql)`: one call of
`PQputCopyData`, with the `strlen(sql)` bytes of the C string at `sql`, and a
`switch` on its value; any value other than `0` and `-1` leaves the `switch`
and the function returns.  `context`, `sql` and the diagnostic text are
`char*` values, streamed into the message as the C strings behind them. -/
def pgsql_CopyData (context : Text) (conn : PGconn) (sql : Text) : Outcome Unit :=
  let r := conn.putCopyData (cstr sql)
  if r.1 = 0 then
    throw_runtime_error
      (boost_format
        [Piece.arg 1, Piece.text (ascii " - bad result during COPY, data "), Piece.arg 2]
        [cstr context, cstr sql, cstr r.2])
  else if r.1 = -1 then
    throw_runtime_error
      (boost_format
        [Piece.arg 1, Piece.text (ascii ": "), Piece.arg 2,
          Piece.text (ascii " - bad result during COPY, data "), Piece.arg 3]
        [cstr r.2, cstr context, cstr sql])
  else Outcome.returned ()

/-! ### Counting the bytes that take an escape -/

/-- Whether a byte is one of the four that the escapers precede by a
backslash: backslash, newline, carriage return, tab. -/
def needsEscape (c : UInt8) : Bool :=
  decide (c = 92 ∨ c = 10 ∨ c = 13 ∨ c = 9)

/-! ## Lemmas and theorems -/

/-! ### C strings and the growable-destination escaper: lemmas -/

theorem cstr_nil : cstr [] = [] := rfl

theorem cstr_cons_zero (s : Text) : cstr (0 :: s) = [] := by
  simp [cstr]

theorem cstr_cons_ne (c : UInt8) (s : Text) (h : c ≠ 0) : cstr (c :: s) = c :: cstr s := by
  simp [cstr, h]

theorem cstr_of_nul_free (s : Text) (h : ∀ b ∈ s, b ≠ 0) : cstr s = s := by
  induction s with
  | nil => rfl
  | cons c s ih =>
    have hc : c ≠ 0 := h c (by simp)
    rw [cstr_cons_ne c s hc, ih (fun b hb => h b (by simp [hb]))]

theorem escape_eq (src dst : Text) : escape src dst = dst ++ escapedText (cstr src) := by
  induction src generalizing dst with
  | nil => simp [escape, cstr, escapedText]
  | cons c s ih =>
    by_cases h0 : c = 0
    · subst h0
      simp [escape, cstr_cons_zero, escapedText]
    · rw [cstr_cons_ne c s h0]
      unfold escape
      simp only [h0, if_false, escapedText, escapedByte]
      split_ifs <;> simp [ih]

theorem wellEscaped_escapedText (s : Text) : wellEscaped (escapedText s) = true := by
  induction s with
  | nil => rfl
  | cons c s ih =>
    unfold escapedText escapedByte
    split_ifs with h1 h2 h3 h4
    · simp [wellEscaped, ih]
    · simp [wellEscaped, ih]
    · simp [wellEscaped, ih]
    · simp [wellEscaped, ih]
    · cases hs : escapedText s with
      | nil => simp [wellEscaped, h1, h2, h3, h4]
      | cons d r =>
        rw [hs] at ih
        simp [wellEscaped, h1, h2, h3, h4, ih]

/-! ### The bounded escaper: lemmas -/

theorem store_inside (buf : Text) (pos : Nat) (b : UInt8) (h : pos < buf.length) :
    store buf pos b = some (buf.set pos b) := by
  simp [store, h]

theorem take_set_le (buf : Text) (m n : Nat) (b : UInt8) (h : m ≤ n) :
    (buf.set n b).take m = buf.take m := by
  apply List.ext_getElem?
  intro i
  rw [List.getElem?_take, List.getElem?_take]
  split
  · rw [List.getElem?_set_ne (by omega)]
  · rfl

theorem take_succ_set (buf : Text) (pos : Nat) (b : UInt8) (h : pos < buf.length) :
    (buf.set pos b).take (pos + 1) = buf.take pos ++ [b] := by
  rw [List.take_succ, List.getElem?_set_self h, take_set_le buf pos pos b (Nat.le_refl pos)]
  rfl

theorem cstr_append (p rest : Text) (h : ∀ b ∈ p, b ≠ 0) : cstr (p ++ rest) = p ++ cstr rest := by
  unfold cstr
  exact List.takeWhile_append_of_pos (by simpa using h)

theorem cstr_eq_nil_iff (s : Text) : cstr s = [] ↔ peek s = 0 := by
  cases s with
  | nil => simp [cstr, peek]
  | cons c s =>
    by_cases h : c = 0
    · simp [cstr, peek, h]
    · simp [cstr, peek, h]

theorem escapedByte_length_pos (c : UInt8) : 0 < (escapedByte c).length := by
  unfold escapedByte
  split_ifs <;> simp

theorem loopPost_one (len : Int) (c : UInt8) (rest out : Text) (pos : Nat) (e : LoopExit)
    (p : Text) (hc : c ≠ 0) (hroom : (pos : Int) < len - 3) (hcap : len ≤ (out.length : Int))
    (hb : escapedByte c = [c])
    (h : LoopPost len rest (out.set pos c) (pos + 1) e p) :
    LoopPost len (c :: rest) out pos e (c :: p) := by
  have hlt : pos < out.length := by omega
  refine ⟨?_, ?_, ?_, ?_, ?_, h.count_eq, ?_, h.stopped, ?_⟩
  · rw [h.split]; rfl
  · intro b hb'
    rcases List.mem_cons.mp hb' with rfl | hb'
    · exact hc
    · exact h.nul_free b hb'
  · rw [h.length_out, List.length_set]
  · rw [h.written, take_succ_set out pos c hlt]
    simp [escapedText, hb]
  · rw [h.pos_eq]
    simp [escapedText, hb]
    omega
  · right
    have := h.pos_eq
    rcases h.bound with hb' | hb'
    · omega
    · exact hb'
  · intro q d t hq
    cases q with
    | nil => simpa [escapedText] using hroom
    | cons a q =>
      simp only [List.cons_append, List.cons.injEq] at hq
      obtain ⟨rfl, hq⟩ := hq
      have := h.consumed_room q d t hq
      simp [escapedText, hb] at this ⊢
      omega

theorem loopPost_two (len : Int) (c x : UInt8) (rest out : Text) (pos : Nat) (e : LoopExit)
    (p : Text) (hc : c ≠ 0) (hroom : (pos : Int) < len - 3) (hcap : len ≤ (out.length : Int))
    (hb : escapedByte c = [92, x])
    (h : LoopPost len rest ((out.set pos 92).set (pos + 1) x) (pos + 2) e p) :
    LoopPost len (c :: rest) out pos e (c :: p) := by
  have hlt : pos < out.length := by omega
  have hlt2 : pos + 1 < (out.set pos 92).length := by rw [List.length_set]; omega
  refine ⟨?_, ?_, ?_, ?_, ?_, h.count_eq, ?_, h.stopped, ?_⟩
  · rw [h.split]; rfl
  · intro b hb'
    rcases List.mem_cons.mp hb' with rfl | hb'
    · exact hc
    · exact h.nul_free b hb'
  · rw [h.length_out, List.length_set, List.length_set]
  · rw [h.written, take_succ_set _ (pos + 1) x hlt2, take_succ_set out pos 92 hlt]
    simp [escapedText, hb]
  · rw [h.pos_eq]
    simp [escapedText, hb]
    omega
  · right
    have := h.pos_eq
    rcases h.bound with hb' | hb'
    · omega
    · exact hb'
  · intro q d t hq
    cases q with
    | nil => simpa [escapedText] using hroom
    | cons a q =>
      simp only [List.cons_append, List.cons.injEq] at hq
      obtain ⟨rfl, hq⟩ := hq
      have := h.consumed_room q d t hq
      simp [escapedText, hb] at this ⊢
      omega

theorem loopPost_stop (len : Int) (src out : Text) (pos : Nat)
    (hstop : peek src = 0 ∨ len - 3 ≤ (pos : Int)) :
    LoopPost len src out pos ⟨out, pos, (pos : Int), src⟩ [] := by
  refine ⟨rfl, ?_, rfl, ?_, ?_, rfl, Or.inl rfl, hstop, ?_⟩
  · intro b hb; cases hb
  · simp [escapedText]
  · simp [escapedText]
  · intro q c t hq
    cases q <;> cases hq

/-- One iteration of the loop on a byte that needs an escape pair. -/
theorem escape_loop_pair (len : Int) (c : UInt8) (rest out : Text) (pos : Nat) (count : Int)
    (hc : c ≠ 0) (hroom : count < len - 3) (hlt : pos + 1 < out.length)
    (hs : c = 92 ∨ c = 10 ∨ c = 13 ∨ c = 9) :
    escape_loop len (c :: rest) out pos count =
      escape_loop len rest ((out.set pos 92).set (pos + 1) c) (pos + 2) (count + 2) := by
  have h1 : pos < out.length := by omega
  have h2 : pos + 1 < (out.set pos 92).length := by rw [List.length_set]; exact hlt
  conv_lhs => unfold escape_loop
  rcases hs with h | h | h | h <;> subst h <;>
    simp [hroom, store_inside out pos 92 h1, store_inside _ (pos + 1) _ h2]

/-- One iteration of the loop on a byte that is copied as it is. -/
theorem escape_loop_plain (len : Int) (c : UInt8) (rest out : Text) (pos : Nat) (count : Int)
    (hc : c ≠ 0) (hroom : count < len - 3) (hlt : pos < out.length)
    (hs : ¬ (c = 92 ∨ c = 10 ∨ c = 13 ∨ c = 9)) :
    escape_loop len (c :: rest) out pos count =
      escape_loop len rest (out.set pos c) (pos + 1) (count + 1) := by
  simp only [not_or] at hs
  obtain ⟨h92, h10, h13, h9⟩ := hs
  conv_lhs => unfold escape_loop
  simp [hc, hroom, h92, h10, h13, h9, store_inside out pos c hlt]

theorem escape_loop_post (len : Int) (src : Text) :
    ∀ (out : Text) (pos : Nat), len ≤ (out.length : Int) →
      ∃ e p, escape_loop len src out pos (pos : Int) = some e ∧ LoopPost len src out pos e p := by
  induction src with
  | nil =>
    intro out pos _
    exact ⟨_, [], rfl, loopPost_stop len [] out pos (Or.inl rfl)⟩
  | cons c rest ih =>
    intro out pos hcap
    by_cases hcond : c ≠ 0 ∧ (pos : Int) < len - 3
    · obtain ⟨hc, hroom⟩ := hcond
      have hlt : pos + 1 < out.length := by omega
      by_cases hs : c = 92 ∨ c = 10 ∨ c = 13 ∨ c = 9
      · obtain ⟨e, p, he, hp⟩ := ih ((out.set pos 92).set (pos + 1) c) (pos + 2)
          (by simpa using hcap)
        refine ⟨e, c :: p, ?_, loopPost_two len c c rest out pos e p hc hroom hcap ?_ hp⟩
        · rw [escape_loop_pair len c rest out pos pos hc hroom hlt hs, ← he]
          push_cast
          rfl
        · rcases hs with h | h | h | h <;> subst h <;> decide
      · obtain ⟨e, p, he, hp⟩ := ih (out.set pos c) (pos + 1) (by simpa using hcap)
        refine ⟨e, c :: p, ?_, loopPost_one len c rest out pos e p hc hroom hcap ?_ hp⟩
        · rw [escape_loop_plain len c rest out pos pos hc hroom (by omega) hs, ← he]
          push_cast
          rfl
        · simp only [not_or] at hs
          simp [escapedByte, hs.1, hs.2.1, hs.2.2.1, hs.2.2.2]
    · refine ⟨_, [], ?_, loopPost_stop len (c :: rest) out pos ?_⟩
      · unfold escape_loop
        simp only [hcond, if_false]
      · by_cases hc : c = 0
        · left; simp [peek, hc]
        · right
          have : ¬ ((pos : Int) < len - 3) := fun h => hcond ⟨hc, h⟩
          omega

theorem escape_bounded_post (len : Int) (buf src : Text) (h1 : 1 ≤ len)
    (hcap : len ≤ (buf.length : Int)) :
    ∃ r p, escape_bounded buf len src = some r ∧ BoundedPost len buf src r p := by
  obtain ⟨e, p, he, hp⟩ := escape_loop_post len src buf 0 hcap
  have hpos : e.pos = (escapedText p).length := by simpa using hp.pos_eq
  have hlt : e.pos < e.out.length := by
    rw [hp.length_out]
    rcases hp.bound with h | h <;> omega
  refine ⟨⟨e.out.set e.pos 0, e.count, e.rest, decide (peek e.rest ≠ 0)⟩, p, ?_, ?_⟩
  · have hne : len ≠ 0 := by omega
    have he0 : escape_loop len src buf 0 0 = some e := by simpa using he
    simp [escape_bounded, hne, he0, store_inside e.out e.pos 0 hlt]
  · refine ⟨hp.split, hp.nul_free, ?_, ?_, ?_, ?_, ?_, hp.stopped, ?_, ?_⟩
    · simp [hp.length_out]
    · simp [hp.count_eq, hpos]
    · show (e.out.set e.pos 0).take (escapedText p).length = escapedText p
      rw [← hpos, take_set_le e.out e.pos e.pos 0 (Nat.le_refl _), hp.written]
      simp
    · show (e.out.set e.pos 0)[(escapedText p).length]? = some 0
      rw [← hpos]
      exact List.getElem?_set_self hlt
    · show e.count = 0 ∨ e.count ≤ len - 2
      rw [hp.count_eq]
      rcases hp.bound with h | h
      · left; simp [h]
      · right; exact h
    · simp
    · intro q c t hq
      simpa using hp.consumed_room q c t hq

theorem escapedText_nul_free (p : Text) (h : ∀ b ∈ p, b ≠ 0) : ∀ b ∈ escapedText p, b ≠ 0 := by
  induction p with
  | nil => intro b hb; cases hb
  | cons c p ih =>
    intro b hb
    have hc : c ≠ 0 := h c (by simp)
    simp only [escapedText, List.mem_append] at hb
    rcases hb with hb | hb
    · unfold escapedByte at hb
      split_ifs at hb <;> simp at hb <;> rcases hb with rfl | rfl <;> first | decide | exact hc
    · exact ih (fun b hb => h b (by simp [hb])) b hb

theorem escape_of_nul_free (p : Text) (h : ∀ b ∈ p, b ≠ 0) : escape p [] = escapedText p := by
  rw [escape_eq, cstr_of_nul_free p h]
  rfl

/-! ### The formatting loop: lemmas -/

theorem cstr_append_nul (t : Text) : cstr (t ++ [0]) = cstr t := by
  induction t with
  | nil => simp [cstr]
  | cons c t ih =>
    by_cases h : c = 0
    · subst h
      simp [cstr]
    · rw [List.cons_append, cstr_cons_ne c _ h, cstr_cons_ne c _ h, ih]

/-- When the text fits, `vsnprintf` stores all of it and returns its length. -/
theorem vsnprintf_fits (libc : Libc) (text : Text) (size : Int)
    (hfit : (text.length : Int) < size) (hint : (text.length : Int) ≤ INT_MAX) :
    vsnprintf libc text size = ((text.length : Int), text ++ [0]) := by
  have h1 : ¬ (INT_MAX < (text.length : Int)) := by omega
  have h2 : 0 < size := by omega
  have h3 : text.length ≤ size.toNat - 1 := by omega
  simp [vsnprintf, h1, hfit, h2, List.take_of_length_le h3]

/-- When the text does not fit, `glibc21` still returns its length. -/
theorem vsnprintf_glibc21_short (text : Text) (size : Int)
    (hshort : size ≤ (text.length : Int)) (hint : (text.length : Int) ≤ INT_MAX) :
    (vsnprintf Libc.glibc21 text size).1 = (text.length : Int) := by
  have h1 : ¬ (INT_MAX < (text.length : Int)) := by omega
  have h2 : ¬ ((text.length : Int) < size) := by omega
  simp [vsnprintf, h1, h2]

/-- When the text does not fit, `glibc20` returns `-1`. -/
theorem vsnprintf_glibc20_short (text : Text) (size : Int)
    (hshort : size ≤ (text.length : Int)) :
    (vsnprintf Libc.glibc20 text size).1 = -1 := by
  have h2 : ¬ ((text.length : Int) < size) := by omega
  simp [vsnprintf, h2]

/-- The value of `vsnprintf` is `-1` or the length of the text, and never exceeds `INT_MAX`. -/
theorem vsnprintf_value (libc : Libc) (text : Text) (size : Int) :
    (vsnprintf libc text size).1 = -1 ∨
      ((vsnprintf libc text size).1 = (text.length : Int) ∧ (text.length : Int) ≤ INT_MAX) := by
  unfold vsnprintf
  by_cases h1 : INT_MAX < (text.length : Int)
  · left; simp [h1]
  · by_cases h2 : (text.length : Int) < size
    · right; simp [h1, h2]; omega
    · cases libc
      · right; simp [h1, h2]; omega
      · left; simp [h1, h2]

theorem format_loop_fits (libc : Libc) (text : Text) (heap : Int → Bool) (fuel : Nat)
    (size : Int) (attempts : Nat)
    (hfit : (text.length : Int) < size) (hint : (text.length : Int) ≤ INT_MAX) :
    format_loop libc text heap (fuel + 1) size attempts =
      Formatted.ok (text ++ [0]) size (attempts + 1) := by
  have h0 : (-1 : Int) < (text.length : Int) := by omega
  simp [format_loop, vsnprintf_fits libc text size hfit hint, hfit, h0]

theorem format_loop_glibc21_grow (text : Text) (heap : Int → Bool) (fuel : Nat)
    (size : Int) (attempts : Nat)
    (hshort : size ≤ (text.length : Int)) (hint : (text.length : Int) + 1 ≤ INT_MAX)
    (hheap : heap ((text.length : Int) + 1) = true) :
    format_loop Libc.glibc21 text heap (fuel + 2) size attempts =
      Formatted.ok (text ++ [0]) ((text.length : Int) + 1) (attempts + 2) := by
  have h0 : (-1 : Int) < (text.length : Int) := by omega
  have h2 : ¬ ((text.length : Int) < size) := by omega
  have h3 : ¬ (INT_MAX < (text.length : Int) + 1) := by omega
  rw [format_loop]
  simp only [vsnprintf_glibc21_short text size hshort (by omega), h0, h2, and_false, if_false,
    gt_iff_lt, if_true, h3, hheap]
  exact format_loop_fits Libc.glibc21 text heap fuel _ _ (by omega) (by omega)

theorem format_loop_glibc21_overflow (text : Text) (heap : Int → Bool) (fuel : Nat)
    (size : Int) (attempts : Nat)
    (hshort : size ≤ (text.length : Int)) (hint : (text.length : Int) = INT_MAX) :
    format_loop Libc.glibc21 text heap (fuel + 1) size attempts = Formatted.overflow := by
  have h0 : (-1 : Int) < (text.length : Int) := by rw [hint]; decide
  have h2 : ¬ ((text.length : Int) < size) := by omega
  have h3 : INT_MAX < (text.length : Int) + 1 := by omega
  rw [format_loop]
  simp only [vsnprintf_glibc21_short text size hshort (by omega), h0, h2, and_false, if_false,
    gt_iff_lt, if_true, h3]

theorem format_loop_glibc20_step (text : Text) (heap : Int → Bool) (fuel : Nat)
    (size : Int) (attempts : Nat)
    (hshort : size ≤ (text.length : Int)) (hint : size * 2 ≤ INT_MAX)
    (hheap : heap (size * 2) = true) :
    format_loop Libc.glibc20 text heap (fuel + 1) size attempts =
      format_loop Libc.glibc20 text heap fuel (size * 2) (attempts + 1) := by
  have h3 : ¬ (INT_MAX < size * 2) := by omega
  rw [format_loop]
  simp [vsnprintf_glibc20_short text size hshort, h3, hheap]

theorem format_loop_glibc20_overflow (text : Text) (heap : Int → Bool) (fuel : Nat)
    (size : Int) (attempts : Nat)
    (hshort : size ≤ (text.length : Int)) (hint : INT_MAX < size * 2) :
    format_loop Libc.glibc20 text heap (fuel + 1) size attempts = Formatted.overflow := by
  rw [format_loop]
  simp [vsnprintf_glibc20_short text size hshort, hint]

/-- Doubling under `glibc20`: starting from `size`, the loop stops at the first
`size * 2 ^ k` that exceeds the length of the text. -/
theorem format_loop_glibc20_doubles (text : Text) (heap : Int → Bool)
    (hheap : ∀ n, heap n = true) (k : Nat) :
    ∀ (fuel : Nat) (size : Int) (attempts : Nat), k < fuel → 0 < size →
      (∀ j, j < k → size * 2 ^ j ≤ (text.length : Int)) →
      (text.length : Int) < size * 2 ^ k → size * 2 ^ k ≤ INT_MAX →
      format_loop Libc.glibc20 text heap fuel size attempts =
        Formatted.ok (text ++ [0]) (size * 2 ^ k) (attempts + k + 1) := by
  induction k with
  | zero =>
    intro fuel size attempts hfuel _ _ hfit hint
    obtain ⟨f, rfl⟩ : ∃ f, fuel = f + 1 := ⟨fuel - 1, by omega⟩
    simp only [pow_zero, mul_one] at hfit hint ⊢
    exact format_loop_fits Libc.glibc20 text heap f size attempts hfit (by omega)
  | succ k ih =>
    intro fuel size attempts hfuel hpos hbelow hfit hint
    obtain ⟨f, rfl⟩ : ∃ f, fuel = f + 1 := ⟨fuel - 1, by omega⟩
    have hshort : size ≤ (text.length : Int) := by simpa using hbelow 0 (by omega)
    have hpow : (1 : Int) ≤ 2 ^ k := one_le_pow₀ (by norm_num)
    have h2 : size * 2 ^ (k + 1) = size * 2 * 2 ^ k := by ring
    have hint2 : size * 2 ≤ INT_MAX := by
      have : size * 2 * 1 ≤ size * 2 * 2 ^ k :=
        mul_le_mul_of_nonneg_left hpow (by omega)
      omega
    rw [format_loop_glibc20_step text heap f size attempts hshort hint2 (hheap _),
      ih f (size * 2) (attempts + 1) (by omega) (by omega) ?_ (by rw [← h2]; exact hfit)
        (by rw [← h2]; exact hint), h2]
    · congr 1
      omega
    · intro j hj
      have := hbelow (j + 1) (by omega)
      have h3 : size * 2 ^ (j + 1) = size * 2 * 2 ^ j := by ring
      rw [← h3]
      exact this

/-- The loop never exhausts a budget of `fuel + 2` iterations once
`size * 2 ^ fuel` is beyond the `int` range. -/
theorem format_loop_total (libc : Libc) (text : Text) (heap : Int → Bool) (fuel : Nat) :
    ∀ (size : Int) (attempts : Nat), 0 < size → INT_MAX < size * 2 ^ fuel →
      format_loop libc text heap (fuel + 2) size attempts ≠ Formatted.outOfFuel := by
  induction fuel with
  | zero =>
    intro size attempts hpos hbig
    simp only [pow_zero, mul_one] at hbig
    rw [format_loop]
    rcases vsnprintf_value libc text size with h | ⟨h, hle⟩
    · have hov : INT_MAX < size * 2 := by omega
      simp [h, hov]
    · have h0 : (-1 : Int) < (text.length : Int) := by omega
      have h1 : (text.length : Int) < size := by omega
      simp [h, h0, h1]
  | succ fuel ih =>
    intro size attempts hpos hbig
    rw [format_loop]
    rcases vsnprintf_value libc text size with h | ⟨h, hle⟩
    · simp only [h, gt_iff_lt, lt_self_iff_false, false_and, if_false]
      split_ifs
      · simp
      · exact ih (size * 2) (attempts + 1) (by omega) (by
          have : size * 2 ^ (fuel + 1) = size * 2 * 2 ^ fuel := by ring
          rw [← this]; exact hbig)
      · simp
    · have h0 : (-1 : Int) < (text.length : Int) := by omega
      simp only [h, gt_iff_lt, h0, true_and, if_true]
      split_ifs with h1 h2 h3
      · simp
      · simp
      · rw [format_loop_fits libc text heap (fuel + 1) _ _ (by omega) hle]
        simp
      · simp

theorem pgsql_exec_format_total (libc : Libc) (text : Text) (heap : Int → Bool) :
    pgsql_exec_format libc text heap ≠ Formatted.outOfFuel := by
  unfold pgsql_exec_format
  split_ifs
  · exact format_loop_total libc text heap 62 100 0 (by decide) (by decide)
  · simp

/-! ### The growable-destination escaper -/

/-- C1, as stated, fails: the source loop stops at a NUL byte, so for the
source bytes `a`, NUL, `b` the destination receives only `a`, not the
byte-by-byte image of all three bytes. -/
theorem escape_stops_at_nul :
    escape [97, 0, 98] [] = [97] ∧ escape [97, 0, 98] [] ≠ [] ++ escapedText [97, 0, 98] := by
  decide

/-- C1 (amended): for every source memory `src` and prior destination `dst`,
`escape` leaves `dst` as a prefix and appends exactly the byte-by-byte image
(backslash doubled; newline, carriage return and tab preceded by a backslash;
any other byte itself) of the source text, which is the part of `src` before
its first NUL byte, all of `src` when it has none.  Escaping `a`, backslash,
`b` into an empty destination gives `a`, backslash, backslash, `b`. -/
theorem escape_appends_escapedText (src dst : Text) :
    escape src dst = dst ++ escapedText (cstr src) ∧
      cstr [97, 92, 98] = [97, 92, 98] ∧ escape [97, 92, 98] [] = [97, 92, 92, 98] :=
  ⟨escape_eq src dst, by decide, by decide⟩

/-- C2, as stated, fails: escaping backslash, `a` gives backslash, backslash,
`a`, whose second backslash is followed by `a`. -/
theorem escape_second_backslash_not_followed :
    escape [92, 97] [] = [92, 92, 97] ∧ ¬ everyBackslashFollowed (escape [92, 97] []) := by
  refine ⟨by decide, ?_⟩
  intro h
  have h1 := h 1 (by decide)
  revert h1
  decide

/-- C2 (amended): for every source, the output of `escape` into an empty
destination scans left to right as a sequence of units, each either one byte
that is none of backslash, newline, carriage return, tab, or a backslash
immediately followed by one of those four bytes; so every backslash that
starts a unit (every backslash other than the second one of a doubled
backslash) is followed by a backslash, newline, carriage return or tab. -/
theorem escape_wellEscaped (src : Text) : wellEscaped (escape src []) = true := by
  rw [escape_eq]
  exact wellEscaped_escapedText (cstr src)

/-! ### The bounded escaper -/

/-- C3, as stated, fails: with the source bytes `a`, NUL, `b` and capacity 8
the loop stops at the NUL, no truncation is reported, and yet the bytes NUL,
`b` of the source were not consumed. -/
theorem escape_bounded_nul_not_reported :
    escape_bounded (List.replicate 8 120) 8 [97, 0, 98] =
      some ⟨[97, 0, 120, 120, 120, 120, 120, 120], 1, [0, 98], false⟩ := by
  decide

/-- C3 (amended): for every source memory `src` and every capacity `C >= 4`,
the bounded escaper returns with a NUL-terminated string in the buffer whose
length is `count`, with `0 <= count < C` (no NUL before index `count`, a NUL
at index `count`), and it reports truncation if and only if the prefix `p` it
consumed is not the whole source text, the source text being the part of
`src` before its first NUL byte (all of `src` when it has none). -/
theorem escape_bounded_terminated (src buf : Text) (C : Int) (hC : 4 ≤ C)
    (hbuf : (buf.length : Int) = C) :
    ∃ r p, escape_bounded buf C src = some r ∧ src = p ++ r.rest ∧
      0 ≤ r.count ∧ r.count < C ∧ r.out.length = buf.length ∧
      r.out[r.count.toNat]? = some 0 ∧
      (∀ i, i < r.count.toNat → r.out[i]? ≠ some 0) ∧
      (r.truncated = true ↔ p ≠ cstr src) := by
  obtain ⟨r, p, hr, hp⟩ := escape_bounded_post C buf src (by omega) (by omega)
  have hcount : r.count.toNat = (escapedText p).length := by simp [hp.count_eq]
  refine ⟨r, p, hr, hp.split, ?_, ?_, hp.length_out, ?_, ?_, ?_⟩
  · rw [hp.count_eq]; exact Int.natCast_nonneg _
  · rcases hp.bound with h | h <;> omega
  · rw [hcount]; exact hp.terminator
  · intro i hi
    rw [hcount] at hi
    have h1 : r.out[i]? = (escapedText p)[i]? := by
      rw [← hp.written, List.getElem?_take_of_lt hi]
    rw [h1, List.getElem?_eq_getElem hi]
    intro h
    exact escapedText_nul_free p hp.nul_free _ (List.getElem_mem hi) (Option.some.inj h)
  · rw [hp.truncated_iff]
    have hc : cstr src = p ++ cstr r.rest := by
      conv_lhs => rw [hp.split]
      exact cstr_append p r.rest hp.nul_free
    rw [hc]
    constructor
    · intro h heq
      apply h
      apply (cstr_eq_nil_iff r.rest).mp
      simpa using heq
    · intro h hpk
      apply h
      rw [(cstr_eq_nil_iff r.rest).mpr hpk]
      simp

/-- C3 at the scenario of the specification: `abcdef` with capacity 5 is
truncated and leaves the partial, NUL-terminated output `ab`. -/
theorem escape_bounded_terminated_witness :
    escape_bounded (List.replicate 5 120) 5 [97, 98, 99, 100, 101, 102] =
        some ⟨[97, 98, 0, 120, 120], 2, [99, 100, 101, 102], true⟩ ∧
      ∃ r p, escape_bounded (List.replicate 5 120) 5 [97, 98, 99, 100, 101, 102] = some r ∧
        [97, 98, 99, 100, 101, 102] = p ++ r.rest ∧
        0 ≤ r.count ∧ r.count < 5 ∧ r.out.length = (List.replicate 5 (120 : UInt8)).length ∧
        r.out[r.count.toNat]? = some 0 ∧
        (∀ i, i < r.count.toNat → r.out[i]? ≠ some 0) ∧
        (r.truncated = true ↔ p ≠ cstr [97, 98, 99, 100, 101, 102]) :=
  ⟨by decide,
    escape_bounded_terminated [97, 98, 99, 100, 101, 102] (List.replicate 5 120) 5
      (by decide) (by decide)⟩

/-- C4: for every source and every capacity `C >= 1`, the bytes the bounded
escaper writes before the terminator are exactly what `escape` produces, into
an empty destination, for the prefix `p` of the source that was consumed
(`p` holds no NUL, so this is the full byte-by-byte image of `p` and no escape
pair is split); when no truncation is reported they are what `escape`
produces for the whole source. -/
theorem escape_bounded_refines_escape (src buf : Text) (C : Int) (hC : 1 ≤ C)
    (hbuf : (buf.length : Int) = C) :
    ∃ r p, escape_bounded buf C src = some r ∧ src = p ++ r.rest ∧
      r.out.take r.count.toNat = escape p [] ∧
      escape p [] = escapedText p ∧
      r.out[r.count.toNat]? = some 0 ∧
      (r.truncated = false → r.out.take r.count.toNat = escape src []) := by
  obtain ⟨r, p, hr, hp⟩ := escape_bounded_post C buf src hC (by omega)
  have hcount : r.count.toNat = (escapedText p).length := by simp [hp.count_eq]
  have hesc := escape_of_nul_free p hp.nul_free
  refine ⟨r, p, hr, hp.split, ?_, hesc, ?_, ?_⟩
  · rw [hcount, hesc]; exact hp.written
  · rw [hcount]; exact hp.terminator
  · intro ht
    have hpk : peek r.rest = 0 := by
      by_contra hne
      have := hp.truncated_iff.mpr hne
      rw [ht] at this
      cases this
    have hc : cstr src = p := by
      conv_lhs => rw [hp.split]
      rw [cstr_append p r.rest hp.nul_free, (cstr_eq_nil_iff r.rest).mpr hpk]
      simp
    rw [hcount, hp.written, escape_eq, hc]
    rfl

/-- C4 at a concrete input: `a`, tab, `b`, `c` with capacity 6. -/
theorem escape_bounded_refines_escape_witness :
    escape_bounded (List.replicate 6 120) 6 [97, 9, 98, 99] =
        some ⟨[97, 92, 9, 0, 120, 120], 3, [98, 99], true⟩ ∧
      ∃ r p, escape_bounded (List.replicate 6 120) 6 [97, 9, 98, 99] = some r ∧
        [97, 9, 98, 99] = p ++ r.rest ∧
        r.out.take r.count.toNat = escape p [] ∧
        escape p [] = escapedText p ∧
        r.out[r.count.toNat]? = some 0 ∧
        (r.truncated = false → r.out.take r.count.toNat = escape [97, 9, 98, 99] []) :=
  ⟨by decide,
    escape_bounded_refines_escape [97, 9, 98, 99] (List.replicate 6 120) 6
      (by decide) (by decide)⟩

/-- C5, as stated, fails: with capacity 0 the function returns at its first
test and stores nothing, so no terminating NUL is left (and no index lies
inside the buffer). -/
theorem escape_bounded_zero_capacity :
    escape_bounded [] 0 [97] = some ⟨[], 0, [97], false⟩ ∧
      ¬ ∃ r, escape_bounded [] 0 [97] = some r ∧ r.out[r.count.toNat]? = some 0 := by
  decide

/-- C5 (amended): for every source and every capacity `C >= 1`, after the
bounded escaper returns the buffer holds a NUL byte at index `count`,
immediately after the `count` bytes written, and that index lies inside the
buffer (`0 <= count < C`); this does not depend on whether truncation was
reported. -/
theorem escape_bounded_writes_terminator (src buf : Text) (C : Int) (hC : 1 ≤ C)
    (hbuf : (buf.length : Int) = C) :
    ∃ r, escape_bounded buf C src = some r ∧ 0 ≤ r.count ∧ r.count < C ∧
      r.out.length = buf.length ∧ r.out[r.count.toNat]? = some 0 := by
  obtain ⟨r, p, hr, hp⟩ := escape_bounded_post C buf src hC (by omega)
  have hcount : r.count.toNat = (escapedText p).length := by simp [hp.count_eq]
  refine ⟨r, hr, ?_, ?_, hp.length_out, ?_⟩
  · rw [hp.count_eq]; exact Int.natCast_nonneg _
  · rcases hp.bound with h | h <;> omega
  · rw [hcount]; exact hp.terminator

/-- C5 at concrete inputs: capacity 1 with a non-empty source (truncated,
terminator at index 0). -/
theorem escape_bounded_writes_terminator_witness :
    escape_bounded [120] 1 [97, 98] = some ⟨[0], 0, [97, 98], true⟩ ∧
      ∃ r, escape_bounded [120] 1 [97, 98] = some r ∧ 0 ≤ r.count ∧ r.count < 1 ∧
        r.out.length = ([120] : Text).length ∧ r.out[r.count.toNat]? = some 0 :=
  ⟨by decide, escape_bounded_writes_terminator [97, 98] [120] 1 (by decide) (by decide)⟩

/-! ### The formatting loop of `pgsql_exec` -/

/-- C6, as stated, fails: a formatted length of `INT_MAX = 2147483647` fits in
a signed `int`, the length-reporting `vsnprintf` returns it, and the loop then
computes `size = n + 1`, which overflows `int`: no buffer holding the text is
reached. -/
theorem pgsql_exec_format_overflows_at_int_max :
    (((List.replicate 2147483647 97 : Text).length : Int) ≤ INT_MAX) ∧
      pgsql_exec_format Libc.glibc21 (List.replicate 2147483647 97) (fun _ => true) =
        Formatted.overflow := by
  have key : ∀ t : Text, (t.length : Int) = INT_MAX →
      pgsql_exec_format Libc.glibc21 t (fun _ => true) = Formatted.overflow := by
    intro t ht
    unfold pgsql_exec_format
    simp only [if_true]
    exact format_loop_glibc21_overflow t _ 63 100 0 (by rw [ht]; decide) ht
  have hlen : ((List.replicate 2147483647 97 : Text).length : Int) = INT_MAX := by
    rw [List.length_replicate]
    rfl
  exact ⟨le_of_eq hlen, key _ hlen⟩

/-- C6 (amended): when allocation succeeds and the formatted length `L` leaves
room for the terminator in an `int` (`L + 1 <= INT_MAX`) if `vsnprintf`
reports the required length, or is below `100 * 2 ^ 24 = 1677721600` if it
reports only `-1`, the growth loop terminates and the buffer it ends with
holds exactly the full formatted text followed by its terminator, in a
capacity greater than `L`; the statement read from that buffer, which is the
one `pgsql_exec` sends to the connection, is the formatted text itself. -/
theorem pgsql_exec_format_complete (libc : Libc) (text : Text) (heap : Int → Bool)
    (hheap : ∀ n, heap n = true)
    (h21 : libc = Libc.glibc21 → (text.length : Int) + 1 ≤ INT_MAX)
    (h20 : libc = Libc.glibc20 → (text.length : Int) < 100 * 2 ^ 24) :
    ∃ size attempts, pgsql_exec_format libc text heap = Formatted.ok (text ++ [0]) size attempts ∧
      (text.length : Int) < size ∧ size ≤ INT_MAX ∧ cstr (text ++ [0]) = cstr text ∧
      ∀ (conn : PGconn) (expect : ExecStatusType),
        (pgsql_exec conn expect libc text heap).cleared = [(conn.exec (cstr text)).1] := by
  suffices hfmt : ∃ size attempts,
      pgsql_exec_format libc text heap = Formatted.ok (text ++ [0]) size attempts ∧
        (text.length : Int) < size ∧ size ≤ INT_MAX ∧ cstr (text ++ [0]) = cstr text by
    obtain ⟨size, attempts, hok, h1, h2, h3⟩ := hfmt
    refine ⟨size, attempts, hok, h1, h2, h3, ?_⟩
    intro conn expect
    unfold pgsql_exec
    rw [hok]
    simp only [h3]
    split_ifs <;> rfl
  unfold pgsql_exec_format
  simp only [hheap, if_true]
  cases libc with
  | glibc21 =>
    have hint := h21 rfl
    by_cases hfit : (text.length : Int) < 100
    · exact ⟨100, 1, format_loop_fits _ text heap 63 100 0 hfit (by omega), hfit, by decide,
        cstr_append_nul text⟩
    · exact ⟨(text.length : Int) + 1, 2,
        format_loop_glibc21_grow text heap 62 100 0 (by omega) hint (hheap _), by omega, hint,
        cstr_append_nul text⟩
  | glibc20 =>
    have hlen := h20 rfl
    have hex : ∃ k, (text.length : Int) < 100 * 2 ^ k := ⟨24, hlen⟩
    have hmin : ∀ j, j < Nat.find hex → (100 : Int) * 2 ^ j ≤ (text.length : Int) := by
      intro j hj
      have := Nat.find_min hex hj
      omega
    have hk : Nat.find hex ≤ 24 := Nat.find_min' hex hlen
    have hpow : (2 : Int) ^ Nat.find hex ≤ 2 ^ 24 := pow_le_pow_right₀ (by norm_num) hk
    have hint : (100 : Int) * 2 ^ Nat.find hex ≤ INT_MAX := by
      have : (100 : Int) * 2 ^ 24 ≤ INT_MAX := by decide
      omega
    refine ⟨100 * 2 ^ Nat.find hex, 0 + Nat.find hex + 1, ?_, Nat.find_spec hex, hint,
      cstr_append_nul text⟩
    exact format_loop_glibc20_doubles text heap hheap (Nat.find hex) 64 100 0 (by omega)
      (by decide) hmin (Nat.find_spec hex) hint

/-- C6 at a concrete input: a statement of 8 bytes, under `glibc20`. -/
theorem pgsql_exec_format_complete_witness :
    pgsql_exec_format Libc.glibc20 (ascii "SELECT 1") (fun _ => true) =
        Formatted.ok (ascii "SELECT 1" ++ [0]) 100 1 ∧
      ∃ size attempts, pgsql_exec_format Libc.glibc20 (ascii "SELECT 1") (fun _ => true) =
          Formatted.ok (ascii "SELECT 1" ++ [0]) size attempts ∧
        ((ascii "SELECT 1").length : Int) < size ∧ size ≤ INT_MAX ∧
        cstr (ascii "SELECT 1" ++ [0]) = cstr (ascii "SELECT 1") ∧
        ∀ (conn : PGconn) (expect : ExecStatusType),
          (pgsql_exec conn expect Libc.glibc20 (ascii "SELECT 1") (fun _ => true)).cleared =
            [(conn.exec (cstr (ascii "SELECT 1"))).1] :=
  ⟨by decide,
    pgsql_exec_format_complete Libc.glibc20 (ascii "SELECT 1") (fun _ => true)
      (fun _ => rfl) (fun h => by cases h) (fun _ => by decide)⟩

/-- C7, as stated, fails: for the 8-byte statement `SELECT 1` the loop ends at
once with the initial capacity 100, not with the 9 bytes the text and its
terminator need. -/
theorem pgsql_exec_format_keeps_initial_capacity :
    pgsql_exec_format Libc.glibc21 (ascii "SELECT 1") (fun _ => true) =
        Formatted.ok (ascii "SELECT 1" ++ [0]) 100 1 ∧
      (100 : Int) ≠ ((ascii "SELECT 1").length : Int) + 1 := by
  decide

/-- C7 (amended): when `vsnprintf` reports the required length, allocation
succeeds and the formatted length `L` has `L + 1 <= INT_MAX`, the final
capacity is the initial 100 bytes when `L < 100` (one formatting attempt, no
retry) and otherwise exactly `L + 1`, the formatted length plus the
terminator, reached after exactly one retry (two formatting attempts). -/
theorem pgsql_exec_format_capacity (text : Text) (heap : Int → Bool)
    (hheap : ∀ n, heap n = true) (hint : (text.length : Int) + 1 ≤ INT_MAX) :
    pgsql_exec_format Libc.glibc21 text heap =
      Formatted.ok (text ++ [0])
        (if (text.length : Int) < 100 then 100 else (text.length : Int) + 1)
        (if (text.length : Int) < 100 then 1 else 2) := by
  unfold pgsql_exec_format
  simp only [hheap, if_true]
  by_cases hfit : (text.length : Int) < 100
  · simp only [hfit, if_true]
    exact format_loop_fits _ text heap 63 100 0 hfit (by omega)
  · simp only [hfit, if_false]
    exact format_loop_glibc21_grow text heap 62 100 0 (by omega) hint (hheap _)

/-- C7 at a concrete input: a text of 120 bytes ends in a capacity of 121
after two attempts. -/
theorem pgsql_exec_format_capacity_witness :
    pgsql_exec_format Libc.glibc21 (List.replicate 120 97) (fun _ => true) =
      Formatted.ok (List.replicate 120 97 ++ [0])
        (if (((List.replicate 120 97 : Text).length : Int)) < 100 then 100
          else ((List.replicate 120 97 : Text).length : Int) + 1)
        (if (((List.replicate 120 97 : Text).length : Int)) < 100 then 1 else 2) ∧
      (if (((List.replicate 120 97 : Text).length : Int)) < 100 then (100 : Int)
          else ((List.replicate 120 97 : Text).length : Int) + 1) = 121 :=
  ⟨pgsql_exec_format_capacity (List.replicate 120 97) (fun _ => true) (fun _ => rfl)
      (by simp [INT_MAX]),
    by simp⟩

/-! ### The executors -/

theorem arguments_loop_all_present (values : List Text) :
    ∀ (before : List (Option Text)) (message : Text),
      arguments_loop (before ++ values.map some) values.length before.length message =
        some (message ++ renderedArguments values) := by
  induction values with
  | nil =>
    intro before message
    simp [arguments_loop, renderedArguments]
  | cons v rest ih =>
    intro before message
    have hget : (before ++ (some v :: rest.map some))[before.length]? = some (some v) := by
      rw [List.getElem?_append_right (Nat.le_refl _)]
      simp
    have hstep := ih (before ++ [some v]) (message ++ cstr v ++ ascii ", ")
    simp only [List.length_append, List.length_singleton, List.append_assoc,
      List.singleton_append] at hstep
    simp only [List.map_cons, List.length_cons, arguments_loop, hget, List.append_assoc]
    rw [hstep]
    simp [renderedArguments, List.append_assoc]

/-- On a status mismatch with no null parameter and `nParams` equal to the
number of parameters, `pgsql_execPrepared` clears the result and throws the
message made of the statement name, the diagnostic text, the status and the
parameters in order, each text being the C string behind its pointer. -/
theorem pgsql_execPrepared_mismatch_all_present (conn : PGconn) (stmtName : Text)
    (values : List Text) (expect : ExecStatusType)
    (hne : (conn.execPrepared stmtName values.length (values.map some)).1.status ≠ expect) :
    pgsql_execPrepared conn stmtName values.length (values.map some) expect =
      ⟨Outcome.thrown
          (cstr stmtName ++ ascii " failed: "
            ++ cstr (conn.execPrepared stmtName values.length (values.map some)).2 ++ ascii "("
            ++ renderStatus (conn.execPrepared stmtName values.length (values.map some)).1.status
            ++ ascii ")" ++ [10]
            ++ (if values = [] then [] else ascii "Arguments were: " ++ renderedArguments values)),
        [(conn.execPrepared stmtName values.length (values.map some)).1]⟩ := by
  unfold pgsql_execPrepared
  simp only [hne, ne_eq, not_false_eq_true, if_true]
  cases values with
  | nil => simp
  | cons v rest =>
    have h := arguments_loop_all_present (v :: rest) []
      (cstr stmtName ++ ascii " failed: "
        ++ cstr (conn.execPrepared stmtName (v :: rest).length ((v :: rest).map some)).2
        ++ ascii "("
        ++ renderStatus (conn.execPrepared stmtName (v :: rest).length ((v :: rest).map some)).1.status
        ++ ascii ")" ++ [10] ++ ascii "Arguments were: ")
    simp only [List.nil_append, List.length_nil] at h
    have hn : ((↑(v :: rest).length : Int)) ≠ 0 := by simp; omega
    simp only [hn, ne_eq, not_false_eq_true, if_true, Int.toNat_ofNat, h]
    simp [List.append_assoc]

/-- C8, as stated, fails: the statement text `a`, NUL, `b` (a `std::string`
may hold a NUL, and the overload passes its `c_str()`) is streamed into the
message as a `const char*`, so with `PGRES_COMMAND_OK` expected and
`PGRES_TUPLES_OK` reported the message is `a failed: no error` and a newline,
which does not contain the statement text. -/
theorem pgsql_exec_simple_message_stops_at_nul :
    pgsql_exec_simple_string
        ⟨fun _ => (⟨1, ExecStatusType.PGRES_TUPLES_OK⟩, ascii "no error"),
          fun _ _ _ => (⟨2, ExecStatusType.PGRES_FATAL_ERROR⟩, []), fun _ => (1, [])⟩
        ExecStatusType.PGRES_COMMAND_OK [97, 0, 98] =
      ⟨Outcome.thrown (ascii "a failed: no error\n"), [⟨1, ExecStatusType.PGRES_TUPLES_OK⟩]⟩ ∧
    ¬ (([97, 0, 98] : Text) <:+: ascii "a failed: no error\n") := by
  refine ⟨by decide, ?_⟩
  intro h
  have hmem : (0 : UInt8) ∈ ascii "a failed: no error\n" := h.subset (by decide)
  revert hmem
  decide

/-- C8 (amended): for every connection, expected status and statement,
`pgsql_exec_simple` (and its `std::string` overload alike) either finds the
reported status equal to the expected one and returns the result without
clearing it, or finds it different, clears the result (once) and throws an
error whose message contains the statement text up to its first NUL byte (all
of it when it holds none) and the current diagnostic text of the connection,
read the same way.  In the scenario of the specification (expected
`PGRES_COMMAND_OK`, statement `SELECT 1`, reported `PGRES_TUPLES_OK`) the call
fails with a message that names `SELECT 1`. -/
theorem pgsql_exec_simple_checks_status (conn : PGconn) (expect : ExecStatusType) (sql : Text) :
    (((conn.exec (cstr sql)).1.status = expect ∧
        pgsql_exec_simple conn expect sql = ⟨Outcome.returned (conn.exec (cstr sql)).1, []⟩) ∨
      ((conn.exec (cstr sql)).1.status ≠ expect ∧
        (pgsql_exec_simple conn expect sql).cleared = [(conn.exec (cstr sql)).1] ∧
        ∃ what, (pgsql_exec_simple conn expect sql).outcome = Outcome.thrown what ∧
          cstr sql <:+: what ∧ cstr (conn.exec (cstr sql)).2 <:+: what)) ∧
    pgsql_exec_simple_string conn expect sql = pgsql_exec_simple conn expect sql ∧
    cstr (ascii "SELECT 1") = ascii "SELECT 1" ∧
    pgsql_exec_simple
        ⟨fun _ => (⟨1, ExecStatusType.PGRES_TUPLES_OK⟩, ascii "no error"),
          fun _ _ _ => (⟨2, ExecStatusType.PGRES_FATAL_ERROR⟩, []), fun _ => (1, [])⟩
        ExecStatusType.PGRES_COMMAND_OK (ascii "SELECT 1") =
      ⟨Outcome.thrown (ascii "SELECT 1 failed: no error\n"),
        [⟨1, ExecStatusType.PGRES_TUPLES_OK⟩]⟩ := by
  refine ⟨?_, rfl, by decide, by decide⟩
  by_cases h : (conn.exec (cstr sql)).1.status = expect
  · left
    exact ⟨h, by simp [pgsql_exec_simple, h]⟩
  · right
    refine ⟨h, by simp [pgsql_exec_simple, h],
      cstr sql ++ ascii " failed: " ++ cstr (conn.exec (cstr sql)).2 ++ [10],
      by simp [pgsql_exec_simple, h], ?_, ?_⟩
    · exact ⟨[], ascii " failed: " ++ cstr (conn.exec (cstr sql)).2 ++ [10], by simp⟩
    · exact ⟨cstr sql ++ ascii " failed: ", [10], by simp⟩

/-- C9: when the reported status equals the expected one, `pgsql_execPrepared`
either was asked for `PGRES_TUPLES_OK` and returns the non-null result without
clearing it, or was asked for any other status (`PGRES_COMMAND_OK` among them)
and clears the result and returns the null pointer. -/
theorem pgsql_execPrepared_success (conn : PGconn) (stmtName : Text) (nParams : Int)
    (paramValues : List (Option Text)) (expect : ExecStatusType)
    (hok : (conn.execPrepared stmtName nParams paramValues).1.status = expect) :
    (expect = ExecStatusType.PGRES_TUPLES_OK ∧
        pgsql_execPrepared conn stmtName nParams paramValues expect =
          ⟨Outcome.returned (some (conn.execPrepared stmtName nParams paramValues).1), []⟩) ∨
      (expect ≠ ExecStatusType.PGRES_TUPLES_OK ∧
        pgsql_execPrepared conn stmtName nParams paramValues expect =
          ⟨Outcome.returned none, [(conn.execPrepared stmtName nParams paramValues).1]⟩) := by
  by_cases h : expect = ExecStatusType.PGRES_TUPLES_OK
  · left
    exact ⟨h, by simp [pgsql_execPrepared, hok, h]⟩
  · right
    exact ⟨h, by simp [pgsql_execPrepared, hok, h]⟩

/-- C9 at concrete inputs: a successful command with `PGRES_COMMAND_OK`
expected gives the null pointer with the result cleared. -/
theorem pgsql_execPrepared_success_witness :
    pgsql_execPrepared
        ⟨fun _ => (⟨1, ExecStatusType.PGRES_TUPLES_OK⟩, []),
          fun _ _ _ => (⟨2, ExecStatusType.PGRES_COMMAND_OK⟩, []), fun _ => (1, [])⟩
        (ascii "insert_node") 1 [some (ascii "17")] ExecStatusType.PGRES_COMMAND_OK =
      ⟨Outcome.returned none, [⟨2, ExecStatusType.PGRES_COMMAND_OK⟩]⟩ ∧
    ((ExecStatusType.PGRES_COMMAND_OK = ExecStatusType.PGRES_TUPLES_OK ∧
        pgsql_execPrepared
            ⟨fun _ => (⟨1, ExecStatusType.PGRES_TUPLES_OK⟩, []),
              fun _ _ _ => (⟨2, ExecStatusType.PGRES_COMMAND_OK⟩, []), fun _ => (1, [])⟩
            (ascii "insert_node") 1 [some (ascii "17")] ExecStatusType.PGRES_COMMAND_OK =
          ⟨Outcome.returned (some ⟨2, ExecStatusType.PGRES_COMMAND_OK⟩), []⟩) ∨
      (ExecStatusType.PGRES_COMMAND_OK ≠ ExecStatusType.PGRES_TUPLES_OK ∧
        pgsql_execPrepared
            ⟨fun _ => (⟨1, ExecStatusType.PGRES_TUPLES_OK⟩, []),
              fun _ _ _ => (⟨2, ExecStatusType.PGRES_COMMAND_OK⟩, []), fun _ => (1, [])⟩
            (ascii "insert_node") 1 [some (ascii "17")] ExecStatusType.PGRES_COMMAND_OK =
          ⟨Outcome.returned none, [⟨2, ExecStatusType.PGRES_COMMAND_OK⟩]⟩)) :=
  ⟨by decide,
    pgsql_execPrepared_success
      ⟨fun _ => (⟨1, ExecStatusType.PGRES_TUPLES_OK⟩, []),
        fun _ _ _ => (⟨2, ExecStatusType.PGRES_COMMAND_OK⟩, []), fun _ => (1, [])⟩
      (ascii "insert_node") 1 [some (ascii "17")] ExecStatusType.PGRES_COMMAND_OK rfl⟩

/-- C10, the code at a failing input: with the parameters `"1"` and a null
pointer and a reported status (`PGRES_FATAL_ERROR`) that differs from the
expected one, the loop over the arguments appends the null pointer to the
message, which is undefined, and `PQclear` is not reached: no error carrying
the parameters is raised and the result is not released. -/
theorem pgsql_execPrepared_null_parameter :
    pgsql_execPrepared
        ⟨fun _ => (⟨1, ExecStatusType.PGRES_TUPLES_OK⟩, []),
          fun _ _ _ => (⟨2, ExecStatusType.PGRES_FATAL_ERROR⟩, ascii "ERROR"), fun _ => (1, [])⟩
        (ascii "insert_node") 2 [some (ascii "1"), none] ExecStatusType.PGRES_COMMAND_OK =
      ⟨Outcome.undefined, []⟩ := by
  decide

/-! ### `pgsql_CopyData` -/

/-- The format string of `pgsql_exec_simple`, `%1% failed: %2%` and a newline,
fed the statement and the diagnostic text, gives the message used in the
embedding of that executor. -/
theorem boost_format_failed_message (sql err : Text) :
    boost_format [Piece.arg 1, Piece.text (ascii " failed: "), Piece.arg 2, Piece.text [10]]
        [sql, err] =
      Outcome.returned (sql ++ ascii " failed: " ++ err ++ [10]) := by
  simp [boost_format, expectedArgs, fillPieces]

/-- On the value `0` of `PQputCopyData` the format string has two directives
and is fed three arguments, so for every context label, chunk and diagnostic
text the exception that leaves the function is `too_many_args`. -/
theorem pgsql_CopyData_wait (context : Text) (conn : PGconn) (sql : Text)
    (h : (conn.putCopyData (cstr sql)).1 = 0) :
    pgsql_CopyData context conn sql = Outcome.thrown too_many_args := by
  simp [pgsql_CopyData, h, boost_format, expectedArgs, throw_runtime_error]

/-- C11, as stated, fails: with the chunk `a`, NUL, `b` and a connection on
which `PQputCopyData` reports the hard failure, the chunk is streamed into the
message as a `const char*`, so the message ends in `data a` and does not
contain the chunk. -/
theorem pgsql_CopyData_message_stops_at_nul :
    pgsql_CopyData (ascii "COPY nodes")
        ⟨fun _ => (⟨1, ExecStatusType.PGRES_TUPLES_OK⟩, []),
          fun _ _ _ => (⟨2, ExecStatusType.PGRES_COMMAND_OK⟩, []),
          fun _ => (-1, ascii "server closed")⟩
        [97, 0, 98] =
      Outcome.thrown (ascii "server closed: COPY nodes - bad result during COPY, data a") ∧
    ¬ (([97, 0, 98] : Text) <:+:
        ascii "server closed: COPY nodes - bad result during COPY, data a") := by
  refine ⟨by decide, ?_⟩
  intro h
  have hmem : (0 : UInt8) ∈ ascii "server closed: COPY nodes - bad result during COPY, data a" :=
    h.subset (by decide)
  revert hmem
  decide

/-- C11 (amended): for every context label, connection and chunk,
`pgsql_CopyData` sends the chunk up to its first NUL byte and returns
normally, with nothing thrown, when `PQputCopyData` reports success (`1`);
when it reports the hard failure (`-1`) it throws an error whose message is
the diagnostic text of the connection, a colon, the context label, the words
"bad result during COPY, data" and the chunk, each of the three read up to its
first NUL byte (all of it when it holds none), so that the message contains
the context label, the diagnostic text and the chunk read that way. -/
theorem pgsql_CopyData_success_and_failure (context : Text) (conn : PGconn) (sql : Text) :
    ((conn.putCopyData (cstr sql)).1 = 1 →
        pgsql_CopyData context conn sql = Outcome.returned ()) ∧
      ((conn.putCopyData (cstr sql)).1 = -1 →
        pgsql_CopyData context conn sql =
            Outcome.thrown (cstr (conn.putCopyData (cstr sql)).2 ++ ascii ": " ++ cstr context
              ++ ascii " - bad result during COPY, data " ++ cstr sql) ∧
          cstr context <:+: (cstr (conn.putCopyData (cstr sql)).2 ++ ascii ": " ++ cstr context
              ++ ascii " - bad result during COPY, data " ++ cstr sql) ∧
          cstr (conn.putCopyData (cstr sql)).2 <:+:
            (cstr (conn.putCopyData (cstr sql)).2 ++ ascii ": " ++ cstr context
              ++ ascii " - bad result during COPY, data " ++ cstr sql) ∧
          cstr sql <:+: (cstr (conn.putCopyData (cstr sql)).2 ++ ascii ": " ++ cstr context
              ++ ascii " - bad result during COPY, data " ++ cstr sql)) := by
  constructor
  · intro h
    simp [pgsql_CopyData, h]
  · intro h
    refine ⟨?_, ?_, ?_, ?_⟩
    · simp [pgsql_CopyData, h, boost_format, expectedArgs, throw_runtime_error, fillPieces]
    · exact ⟨cstr (conn.putCopyData (cstr sql)).2 ++ ascii ": ",
        ascii " - bad result during COPY, data " ++ cstr sql, by simp⟩
    · exact ⟨[], ascii ": " ++ cstr context ++ ascii " - bad result during COPY, data "
        ++ cstr sql, by simp⟩
    · exact ⟨cstr (conn.putCopyData (cstr sql)).2 ++ ascii ": " ++ cstr context
        ++ ascii " - bad result during COPY, data ", [], by simp⟩

/-- C11 at concrete inputs: the chunk `1`, tab, `2`, newline pushed under the
label `COPY nodes`, once on a connection that accepts it and once on a
connection that reports the hard failure with the diagnostic text
`server closed`. -/
theorem pgsql_CopyData_success_and_failure_witness :
    pgsql_CopyData (ascii "COPY nodes")
        ⟨fun _ => (⟨1, ExecStatusType.PGRES_TUPLES_OK⟩, []),
          fun _ _ _ => (⟨2, ExecStatusType.PGRES_COMMAND_OK⟩, []), fun _ => (1, [])⟩
        [49, 9, 50, 10] = Outcome.returned () ∧
      pgsql_CopyData (ascii "COPY nodes")
        ⟨fun _ => (⟨1, ExecStatusType.PGRES_TUPLES_OK⟩, []),
          fun _ _ _ => (⟨2, ExecStatusType.PGRES_COMMAND_OK⟩, []),
          fun _ => (-1, ascii "server closed")⟩
        [49, 9, 50, 10] =
          Outcome.thrown (cstr (ascii "server closed") ++ ascii ": " ++ cstr (ascii "COPY nodes")
            ++ ascii " - bad result during COPY, data " ++ cstr [49, 9, 50, 10]) ∧
      cstr (ascii "server closed") ++ ascii ": " ++ cstr (ascii "COPY nodes")
          ++ ascii " - bad result during COPY, data " ++ cstr [49, 9, 50, 10] =
        ascii "server closed: COPY nodes - bad result during COPY, data 1\t2\n" :=
  ⟨(pgsql_CopyData_success_and_failure (ascii "COPY nodes")
      ⟨fun _ => (⟨1, ExecStatusType.PGRES_TUPLES_OK⟩, []),
        fun _ _ _ => (⟨2, ExecStatusType.PGRES_COMMAND_OK⟩, []), fun _ => (1, [])⟩
      [49, 9, 50, 10]).1 rfl,
    ((pgsql_CopyData_success_and_failure (ascii "COPY nodes")
      ⟨fun _ => (⟨1, ExecStatusType.PGRES_TUPLES_OK⟩, []),
        fun _ _ _ => (⟨2, ExecStatusType.PGRES_COMMAND_OK⟩, []),
        fun _ => (-1, ascii "server closed")⟩
      [49, 9, 50, 10]).2 rfl).1,
    by decide⟩

/-- C12, the code at a failing input: with the label `COPY nodes`, the chunk
`1`, tab, `2`, newline and a connection on which `PQputCopyData` reports `0`,
the function does fail, but the exception is the `too_many_args` of the format
library (three arguments for a format string with two directives), and its
message contains neither the context label nor the chunk. -/
theorem pgsql_CopyData_wait_loses_message :
    pgsql_CopyData (ascii "COPY nodes")
        ⟨fun _ => (⟨1, ExecStatusType.PGRES_TUPLES_OK⟩, []),
          fun _ _ _ => (⟨2, ExecStatusType.PGRES_COMMAND_OK⟩, []), fun _ => (0, [])⟩
        [49, 9, 50, 10] = Outcome.thrown too_many_args ∧
      ¬ (ascii "COPY nodes" <:+: too_many_args) ∧
      ¬ (([49, 9, 50, 10] : Text) <:+: too_many_args) := by
  refine ⟨by decide, ?_, ?_⟩
  · intro h
    have hmem : (67 : UInt8) ∈ too_many_args := h.subset (by decide)
    revert hmem
    decide
  · intro h
    have hmem : (49 : UInt8) ∈ too_many_args := h.subset (by decide)
    revert hmem
    decide

/-! ### Release of the result by the executors -/

/-- The executor `pgsql_exec_simple` either hands the result to the caller and
clears nothing, or throws and has cleared the result exactly once. -/
theorem pgsql_exec_simple_release (conn : PGconn) (expect : ExecStatusType) (sql : Text) :
    ((pgsql_exec_simple conn expect sql).outcome = Outcome.returned (conn.exec (cstr sql)).1 ∧
        (pgsql_exec_simple conn expect sql).cleared = []) ∨
      (∃ what, (pgsql_exec_simple conn expect sql).outcome = Outcome.thrown what ∧
        (pgsql_exec_simple conn expect sql).cleared = [(conn.exec (cstr sql)).1]) := by
  by_cases h : (conn.exec (cstr sql)).1.status = expect
  · left
    simp [pgsql_exec_simple, h]
  · right
    exact ⟨cstr sql ++ ascii " failed: " ++ cstr (conn.exec (cstr sql)).2 ++ [10],
      by simp [pgsql_exec_simple, h], by simp [pgsql_exec_simple, h]⟩

/-- The executor `pgsql_exec` clears the result it obtained exactly once, on
the success path and on the mismatch path alike, and hands no result to the
caller; when the statement could not be formatted no result was obtained and
nothing is cleared. -/
theorem pgsql_exec_release (conn : PGconn) (expect : ExecStatusType) (libc : Libc)
    (text : Text) (heap : Int → Bool) :
    (∃ sql size attempts, pgsql_exec_format libc text heap = Formatted.ok sql size attempts ∧
        (pgsql_exec conn expect libc text heap).cleared = [(conn.exec (cstr sql)).1] ∧
        ((pgsql_exec conn expect libc text heap).outcome = Outcome.returned 0 ∨
          ∃ what, (pgsql_exec conn expect libc text heap).outcome = Outcome.thrown what)) ∨
      ((∀ sql size attempts, pgsql_exec_format libc text heap ≠ Formatted.ok sql size attempts) ∧
        (pgsql_exec conn expect libc text heap).cleared = []) := by
  unfold pgsql_exec
  cases hf : pgsql_exec_format libc text heap with
  | ok sql size attempts =>
    left
    refine ⟨sql, size, attempts, rfl, ?_, ?_⟩
    · simp only []
      split_ifs <;> rfl
    · simp only []
      split_ifs
      · right; exact ⟨_, rfl⟩
      · left; rfl
  | allocFailed what => right; exact ⟨fun _ _ _ h => (by cases h), rfl⟩
  | overflow => right; exact ⟨fun _ _ _ h => (by cases h), rfl⟩
  | outOfFuel => right; exact ⟨fun _ _ _ h => (by cases h), rfl⟩

/-- On every path of `pgsql_execPrepared` that returns or throws, the result
is either handed to the caller with nothing cleared, or cleared exactly once
(before `NULL` is returned, or before the error is thrown). -/
theorem pgsql_execPrepared_release (conn : PGconn) (stmtName : Text) (nParams : Int)
    (paramValues : List (Option Text)) (expect : ExecStatusType) :
    (pgsql_execPrepared conn stmtName nParams paramValues expect).outcome = Outcome.undefined ∨
      ((pgsql_execPrepared conn stmtName nParams paramValues expect).outcome =
          Outcome.returned (some (conn.execPrepared stmtName nParams paramValues).1) ∧
        (pgsql_execPrepared conn stmtName nParams paramValues expect).cleared = []) ∨
      ((pgsql_execPrepared conn stmtName nParams paramValues expect).outcome =
          Outcome.returned none ∧
        (pgsql_execPrepared conn stmtName nParams paramValues expect).cleared =
          [(conn.execPrepared stmtName nParams paramValues).1]) ∨
      (∃ what, (pgsql_execPrepared conn stmtName nParams paramValues expect).outcome =
          Outcome.thrown what ∧
        (pgsql_execPrepared conn stmtName nParams paramValues expect).cleared =
          [(conn.execPrepared stmtName nParams paramValues).1]) := by
  unfold pgsql_execPrepared
  by_cases h : (conn.execPrepared stmtName nParams paramValues).1.status = expect
  · by_cases ht : expect = ExecStatusType.PGRES_TUPLES_OK
    · right; left
      simp [h, ht]
    · right; right; left
      simp [h, ht]
  · simp only [h, ne_eq, not_false_eq_true, if_true]
    split
    · right; right; right
      exact ⟨_, rfl, rfl⟩
    · left; rfl

/-- C13, the code at a failing input: `pgsql_execPrepared` is called with one
parameter that is a null pointer, expecting `PGRES_TUPLES_OK`, on a connection
whose result has status `PGRES_FATAL_ERROR`.  The result obtained from the
connection is neither handed to the caller nor cleared: building the message
runs into the null pointer before `PQclear` is reached. -/
theorem pgsql_execPrepared_null_parameter_not_released :
    (pgsql_execPrepared
        ⟨fun _ => (⟨1, ExecStatusType.PGRES_TUPLES_OK⟩, []),
          fun _ _ _ => (⟨7, ExecStatusType.PGRES_FATAL_ERROR⟩, ascii "ERROR"), fun _ => (1, [])⟩
        (ascii "get_way") 1 [none] ExecStatusType.PGRES_TUPLES_OK).cleared = [] ∧
      (pgsql_execPrepared
        ⟨fun _ => (⟨1, ExecStatusType.PGRES_TUPLES_OK⟩, []),
          fun _ _ _ => (⟨7, ExecStatusType.PGRES_FATAL_ERROR⟩, ascii "ERROR"), fun _ => (1, [])⟩
        (ascii "get_way") 1 [none] ExecStatusType.PGRES_TUPLES_OK).outcome =
          Outcome.undefined := by
  decide

/-! ### Headroom of the bounded escaper -/

theorem cstr_nul_free (s : Text) : ∀ b ∈ cstr s, b ≠ 0 := by
  intro b hb
  have := List.mem_takeWhile_imp hb
  simpa using this

theorem escapedText_append (a b : Text) :
    escapedText (a ++ b) = escapedText a ++ escapedText b := by
  induction a with
  | nil => rfl
  | cons c a ih => simp [escapedText, ih]

/-- C14, as stated, fails: with capacity 5 and the input `abcdef` the loop
stops after two bytes, with source remaining, while 3 bytes of headroom are
left (not fewer than 3). -/
theorem escape_bounded_stops_at_headroom_three :
    escape_bounded (List.replicate 5 120) 5 [97, 98, 99, 100, 101, 102] =
        some ⟨[97, 98, 0, 120, 120], 2, [99, 100, 101, 102], true⟩ ∧
      ¬ ((5 : Int) - 2 < 3) := by
  decide

/-- C14 (amended): for every source and every capacity `C >= 1`, the bounded
escaper consumes a source byte only while at least 4 bytes of headroom remain
(capacity minus bytes written so far `>= 4`), it keeps consuming as long as
that holds (if at least 4 bytes of headroom remain at the end, the whole source
text was consumed), and it stops with source remaining, reporting truncation,
only once at most 3 bytes of headroom remain. -/
theorem escape_bounded_headroom (src buf : Text) (C : Int) (hC : 1 ≤ C)
    (hbuf : (buf.length : Int) = C) :
    ∃ r p, escape_bounded buf C src = some r ∧ src = p ++ r.rest ∧
      (∀ q c t, p = q ++ c :: t → 4 ≤ C - ((escape q []).length : Int)) ∧
      (4 ≤ C - r.count → p = cstr src ∧ r.truncated = false) ∧
      (r.truncated = true → C - r.count ≤ 3) := by
  obtain ⟨r, p, hr, hp⟩ := escape_bounded_post C buf src hC (by omega)
  have hstop : r.truncated = true → C - r.count ≤ 3 := by
    intro ht
    have hne := hp.truncated_iff.mp ht
    rcases hp.stopped with h | h
    · exact absurd h hne
    · omega
  refine ⟨r, p, hr, hp.split, ?_, ?_, hstop⟩
  · intro q c t hq
    have hqfree : ∀ b ∈ q, b ≠ 0 := by
      intro b hb
      exact hp.nul_free b (by rw [hq]; simp [hb])
    rw [escape_of_nul_free q hqfree]
    have := hp.consumed_room q c t hq
    omega
  · intro hroom
    have hpk : peek r.rest = 0 := by
      rcases hp.stopped with h | h
      · exact h
      · omega
    constructor
    · conv_rhs => rw [hp.split]
      rw [cstr_append p r.rest hp.nul_free, (cstr_eq_nil_iff r.rest).mpr hpk]
      simp
    · cases ht : r.truncated with
      | false => rfl
      | true => exact absurd hpk (hp.truncated_iff.mp ht)

/-- C14 at a concrete input: capacity 6 and the input `abcdef`. -/
theorem escape_bounded_headroom_witness :
    escape_bounded (List.replicate 6 120) 6 [97, 98, 99, 100, 101, 102] =
        some ⟨[97, 98, 99, 0, 120, 120], 3, [100, 101, 102], true⟩ ∧
      ∃ r p, escape_bounded (List.replicate 6 120) 6 [97, 98, 99, 100, 101, 102] = some r ∧
        [97, 98, 99, 100, 101, 102] = p ++ r.rest ∧
        (∀ q c t, p = q ++ c :: t → 4 ≤ (6 : Int) - ((escape q []).length : Int)) ∧
        (4 ≤ (6 : Int) - r.count → p = cstr [97, 98, 99, 100, 101, 102] ∧ r.truncated = false) ∧
        (r.truncated = true → (6 : Int) - r.count ≤ 3) :=
  ⟨by decide,
    escape_bounded_headroom [97, 98, 99, 100, 101, 102] (List.replicate 6 120) 6
      (by decide) (by decide)⟩

/-! ### Doubling of the statement buffer -/

/-- Doubling under `glibc20` runs into the `int` range: when the text is at
least `size * 2 ^ k` bytes long and `size * 2 ^ (k + 1)` exceeds `INT_MAX`,
the loop ends in the overflow of `size *= 2`. -/
theorem format_loop_glibc20_overflows (text : Text) (heap : Int → Bool)
    (hheap : ∀ n, heap n = true) (k : Nat) :
    ∀ (fuel : Nat) (size : Int) (attempts : Nat), k < fuel → 0 < size →
      size * 2 ^ k ≤ (text.length : Int) → size * 2 ^ k ≤ INT_MAX →
      INT_MAX < size * 2 ^ (k + 1) →
      format_loop Libc.glibc20 text heap fuel size attempts = Formatted.overflow := by
  induction k with
  | zero =>
    intro fuel size attempts hfuel _ hshort _ hover
    obtain ⟨f, rfl⟩ : ∃ f, fuel = f + 1 := ⟨fuel - 1, by omega⟩
    simp only [pow_zero, mul_one, zero_add, pow_one] at hshort hover
    exact format_loop_glibc20_overflow text heap f size attempts hshort hover
  | succ k ih =>
    intro fuel size attempts hfuel hpos hshort hint hover
    obtain ⟨f, rfl⟩ : ∃ f, fuel = f + 1 := ⟨fuel - 1, by omega⟩
    have hpow : (1 : Int) ≤ 2 ^ k := one_le_pow₀ (by norm_num)
    have h2 : size * 2 ^ (k + 1) = size * 2 * 2 ^ k := by ring
    have h3 : size * 2 ^ (k + 1 + 1) = size * 2 * 2 ^ (k + 1) := by ring
    have hle : size * 2 * 1 ≤ size * 2 * 2 ^ k := mul_le_mul_of_nonneg_left hpow (by omega)
    rw [format_loop_glibc20_step text heap f size attempts (by omega) (by omega) (hheap _)]
    exact ih f (size * 2) (attempts + 1) (by omega) (by omega) (by rw [← h2]; exact hshort)
      (by rw [← h2]; exact hint) (by rw [← h3]; exact hover)

/-- C15, as stated, fails: a formatted length of `100 * 2 ^ 24 = 1677721600`
lies within the signed `int` range, yet under a `vsnprintf` that reports only
`-1` the capacity is doubled from 100 up to `100 * 2 ^ 24`, still does not
hold the text, and the next doubling overflows `int`. -/
theorem pgsql_exec_format_doubling_overflows :
    (((List.replicate 1677721600 97 : Text).length : Int) ≤ INT_MAX) ∧
      pgsql_exec_format Libc.glibc20 (List.replicate 1677721600 97) (fun _ => true) =
        Formatted.overflow := by
  have key : ∀ t : Text, (t.length : Int) = 1677721600 →
      pgsql_exec_format Libc.glibc20 t (fun _ => true) = Formatted.overflow := by
    intro t ht
    unfold pgsql_exec_format
    simp only [if_true]
    exact format_loop_glibc20_overflows t _ (fun _ => rfl) 24 64 100 0 (by decide) (by decide)
      (by rw [ht]; decide) (by decide) (by decide)
  have hlen : ((List.replicate 1677721600 97 : Text).length : Int) = 1677721600 := by
    rw [List.length_replicate]
    rfl
  exact ⟨by rw [hlen]; decide, key _ hlen⟩

/-- C15 (amended): when `vsnprintf` reports only `-1` for insufficient space
and allocation succeeds, for every formatted length `L` below
`100 * 2 ^ 24 = 1677721600` the capacity is doubled on each retry starting
from 100 and the loop stops at capacity `100 * 2 ^ k` for the least `k` with
`L < 100 * 2 ^ k`, after `k + 1` formatting attempts, with the full text in the
buffer and every capacity on the way within the `int` range. -/
theorem pgsql_exec_format_doubles (text : Text) (heap : Int → Bool)
    (hheap : ∀ n, heap n = true) (hlen : (text.length : Int) < 100 * 2 ^ 24) :
    ∃ k, (text.length : Int) < 100 * 2 ^ k ∧
      (∀ j, j < k → (100 : Int) * 2 ^ j ≤ (text.length : Int)) ∧
      (100 : Int) * 2 ^ k ≤ INT_MAX ∧
      pgsql_exec_format Libc.glibc20 text heap =
        Formatted.ok (text ++ [0]) (100 * 2 ^ k) (k + 1) := by
  have hex : ∃ k, (text.length : Int) < 100 * 2 ^ k := ⟨24, hlen⟩
  have hmin : ∀ j, j < Nat.find hex → (100 : Int) * 2 ^ j ≤ (text.length : Int) := by
    intro j hj
    have := Nat.find_min hex hj
    omega
  have hk : Nat.find hex ≤ 24 := Nat.find_min' hex hlen
  have hpow : (2 : Int) ^ Nat.find hex ≤ 2 ^ 24 := pow_le_pow_right₀ (by norm_num) hk
  have hint : (100 : Int) * 2 ^ Nat.find hex ≤ INT_MAX := by
    have : (100 : Int) * 2 ^ 24 ≤ INT_MAX := by decide
    omega
  refine ⟨Nat.find hex, Nat.find_spec hex, hmin, hint, ?_⟩
  unfold pgsql_exec_format
  simp only [hheap, if_true]
  have h := format_loop_glibc20_doubles text heap hheap (Nat.find hex) 64 100 0 (by omega)
    (by decide) hmin (Nat.find_spec hex) hint
  simpa using h

set_option maxRecDepth 4096 in
/-- C15 at a concrete input: a text of 120 bytes ends in capacity 200 after two attempts. -/
theorem pgsql_exec_format_doubles_witness :
    pgsql_exec_format Libc.glibc20 (List.replicate 120 97) (fun _ => true) =
        Formatted.ok (List.replicate 120 97 ++ [0]) 200 2 ∧
      ∃ k, ((List.replicate 120 97 : Text).length : Int) < 100 * 2 ^ k ∧
        (∀ j, j < k → (100 : Int) * 2 ^ j ≤ ((List.replicate 120 97 : Text).length : Int)) ∧
        (100 : Int) * 2 ^ k ≤ INT_MAX ∧
        pgsql_exec_format Libc.glibc20 (List.replicate 120 97) (fun _ => true) =
          Formatted.ok (List.replicate 120 97 ++ [0]) (100 * 2 ^ k) (k + 1) :=
  ⟨by decide,
    pgsql_exec_format_doubles (List.replicate 120 97) (fun _ => true) (fun _ => rfl)
      (by simp)⟩

/-! ### Algebra of the growable-destination escaper -/

theorem escapedByte_of_needsEscape (c : UInt8) (h : needsEscape c = true) :
    escapedByte c = [92, c] := by
  simp only [needsEscape, decide_eq_true_eq] at h
  rcases h with h | h | h | h <;> subst h <;> decide

theorem escapedByte_of_plain (c : UInt8) (h : needsEscape c = false) :
    escapedByte c = [c] ∧ c ≠ 92 := by
  simp only [needsEscape, decide_eq_false_iff_not, not_or] at h
  exact ⟨by simp [escapedByte, h.1, h.2.1, h.2.2.1, h.2.2.2], h.1⟩

theorem escapedText_ne_nil (c : UInt8) (s : Text) : escapedText (c :: s) ≠ [] := by
  intro h
  have hpos := escapedByte_length_pos c
  have hlen := congrArg List.length h
  simp only [escapedText, List.length_append, List.length_nil] at hlen
  omega

/-- The byte-by-byte image determines the sequence it was taken of. -/
theorem escapedText_injective (s : Text) : ∀ t : Text, escapedText s = escapedText t → s = t := by
  induction s with
  | nil =>
    intro t h
    cases t with
    | nil => rfl
    | cons d t => exact absurd h.symm (escapedText_ne_nil d t)
  | cons c s ih =>
    intro t h
    cases t with
    | nil => exact absurd h (escapedText_ne_nil c s)
    | cons d t =>
      simp only [escapedText] at h
      cases hc : needsEscape c <;> cases hd : needsEscape d
      · rw [(escapedByte_of_plain c hc).1, (escapedByte_of_plain d hd).1] at h
        simp only [List.singleton_append, List.cons.injEq] at h
        rw [h.1, ih t h.2]
      · rw [(escapedByte_of_plain c hc).1, escapedByte_of_needsEscape d hd] at h
        simp only [List.singleton_append, List.cons_append, List.cons.injEq] at h
        exact absurd h.1 (escapedByte_of_plain c hc).2
      · rw [escapedByte_of_needsEscape c hc, (escapedByte_of_plain d hd).1] at h
        simp only [List.singleton_append, List.cons_append, List.cons.injEq] at h
        exact absurd h.1.symm (escapedByte_of_plain d hd).2
      · rw [escapedByte_of_needsEscape c hc, escapedByte_of_needsEscape d hd] at h
        simp only [List.cons_append, List.nil_append, List.cons.injEq, true_and] at h
        rw [h.1, ih t h.2]

theorem escapedText_length (s : Text) :
    (escapedText s).length = s.length + s.countP needsEscape := by
  induction s with
  | nil => rfl
  | cons c s ih =>
    cases hc : needsEscape c
    · simp [escapedText, (escapedByte_of_plain c hc).1, ih, List.countP_cons, hc]
      omega
    · simp [escapedText, escapedByte_of_needsEscape c hc, ih, List.countP_cons, hc]
      omega

/-- C16, as stated, fails: the one-byte sequence NUL and the empty sequence
are different and have the same (empty) encoding. -/
theorem escape_not_injective_at_nul :
    escape [0] [] = escape [] [] ∧ ([0] : Text) ≠ [] := by
  decide

/-- C16 (amended): two sources have the same encoding (each escaped into an
empty destination) if and only if they hold the same source text, the source
text being the part before the first NUL byte; hence `escape` is injective on
the sequences that hold no NUL byte, and their encoding decodes unambiguously. -/
theorem escape_injective_on_text (s t : Text) :
    escape s [] = escape t [] ↔ cstr s = cstr t := by
  rw [escape_eq, escape_eq]
  constructor
  · intro h
    exact escapedText_injective (cstr s) (cstr t) (by simpa using h)
  · intro h
    rw [h]

/-- C17, as stated, fails: with `A` the one-byte sequence NUL and `B` the byte
`a`, escaping `A` and then `B` leaves `a` in the destination, while escaping
`A ++ B` at once leaves it empty. -/
theorem escape_concat_fails_at_nul :
    escape [97] (escape [0] []) = [97] ∧ escape ([0] ++ [97]) [] = [] := by
  decide

/-- C17 (amended): for all sequences `A` and `B` and every destination,
escaping `A` and then `B` into the same destination yields the same
destination as escaping once the source text of `A` (the part of `A` before
its first NUL byte, all of `A` when it holds none) followed by `B`; and
escaping the empty sequence leaves the destination unchanged. -/
theorem escape_concat (a b dst : Text) :
    escape b (escape a dst) = escape (cstr a ++ b) dst ∧ escape [] dst = dst := by
  refine ⟨?_, rfl⟩
  rw [escape_eq b, escape_eq a, escape_eq (cstr a ++ b),
    cstr_append (cstr a) b (cstr_nul_free a), escapedText_append, List.append_assoc]

/-- C18, as stated, fails: the three bytes `a`, NUL, tab have the one-byte
encoding `a`, which is shorter than the sequence. -/
theorem escape_length_fails_at_nul :
    (escape [97, 0, 9] []).length = 1 ∧
      ([97, 0, 9] : Text).length + ([97, 0, 9] : Text).countP needsEscape = 4 := by
  decide

/-- C18 (amended): for every source, with `T` its source text (the part before
the first NUL byte, all of it when there is none), the length of the encoding
is the length of `T` plus the number of backslash, newline, carriage-return
and tab bytes in `T`, and hence lies between `|T|` and `2 * |T|`. -/
theorem escape_length (s : Text) :
    (escape s []).length = (cstr s).length + (cstr s).countP needsEscape ∧
      (cstr s).length ≤ (escape s []).length ∧
      (escape s []).length ≤ 2 * (cstr s).length := by
  have h : (escape s []).length = (cstr s).length + (cstr s).countP needsEscape := by
    rw [escape_eq]
    simpa using escapedText_length (cstr s)
  have hle := List.countP_le_length needsEscape (l := cstr s)
  exact ⟨h, by omega, by omega⟩

/-! ### Truncation of the bounded escaper -/

/-- C19: for every source and every capacity `C >= 4`, the bounded escaper
reports truncation only when at least `C - 3` bytes have been written; so a
source whose encoding by `escape` is at most `C - 3` bytes long is not
truncated, and the buffer holds that encoding in full, followed by the
terminator. -/
theorem escape_bounded_truncation_threshold (src buf : Text) (C : Int) (hC : 4 ≤ C)
    (hbuf : (buf.length : Int) = C) :
    ∃ r, escape_bounded buf C src = some r ∧
      (r.truncated = true → C - 3 ≤ r.count) ∧
      (((escape src []).length : Int) ≤ C - 3 →
        r.truncated = false ∧ r.out.take (escape src []).length = escape src [] ∧
          r.out[(escape src []).length]? = some 0) := by
  obtain ⟨r, p, hr, hp⟩ := escape_bounded_post C buf src (by omega) (by omega)
  have hthr : r.truncated = true → C - 3 ≤ r.count := by
    intro ht
    rcases hp.stopped with h | h
    · exact absurd h (hp.truncated_iff.mp ht)
    · exact h
  have hcs : cstr src = p ++ cstr r.rest := by
    conv_lhs => rw [hp.split]
    exact cstr_append p r.rest hp.nul_free
  have hesc : escape src [] = escapedText p ++ escapedText (cstr r.rest) := by
    rw [escape_eq, hcs, escapedText_append]
    rfl
  refine ⟨r, hr, hthr, ?_⟩
  intro hshort
  have hnot : r.truncated = false := by
    cases ht : r.truncated with
    | false => rfl
    | true =>
      exfalso
      have hcount := hthr ht
      have hne : peek r.rest ≠ 0 := hp.truncated_iff.mp ht
      have hnil : cstr r.rest ≠ [] := fun h => hne ((cstr_eq_nil_iff r.rest).mp h)
      obtain ⟨c, t, hct⟩ := List.exists_cons_of_ne_nil hnil
      have hpos := escapedByte_length_pos c
      rw [hesc, hct] at hshort
      simp only [escapedText, List.length_append, Nat.cast_add] at hshort
      have := hp.count_eq
      omega
  have hpk : peek r.rest = 0 := by
    by_contra hne
    have := hp.truncated_iff.mpr hne
    rw [hnot] at this
    cases this
  have hfull : escape src [] = escapedText p := by
    rw [hesc, (cstr_eq_nil_iff r.rest).mpr hpk]
    simp [escapedText]
  rw [hfull]
  exact ⟨hnot, hp.written, hp.terminator⟩

/-- C19 at concrete inputs: `a`, tab, `b` with capacity 8 fits (its encoding
has 4 bytes, at most `8 - 3`) and is written in full. -/
theorem escape_bounded_truncation_threshold_witness :
    escape_bounded (List.replicate 8 120) 8 [97, 9, 98] =
        some ⟨[97, 92, 9, 98, 0, 120, 120, 120], 4, [], false⟩ ∧
      ∃ r, escape_bounded (List.replicate 8 120) 8 [97, 9, 98] = some r ∧
        (r.truncated = true → (8 : Int) - 3 ≤ r.count) ∧
        (((escape [97, 9, 98] []).length : Int) ≤ 8 - 3 →
          r.truncated = false ∧
            r.out.take (escape [97, 9, 98] []).length = escape [97, 9, 98] [] ∧
            r.out[(escape [97, 9, 98] []).length]? = some 0) :=
  ⟨by decide,
    escape_bounded_truncation_threshold [97, 9, 98] (List.replicate 8 120) 8
      (by decide) (by decide)⟩

end Pgsql
